import Mathlib

/-!
# HloFusionAnalysisCache

A shallow embedding of `xla/service/gpu/model/fusion_analysis_cache.cc`:
the two `Get` overloads and `Invalidate`, over the four hash maps of the
cache, run sequentially (one operation at a time, each running to its end).

* A node (`const HloInstruction*`) is its address, a natural number.
* A hash map is a partial function from keys to values; `find`, `insert`
  (`m[k] = v`), `erase` and `extract` are the only accesses the source makes.
* `std::optional<HloFusionAnalysis>` is `Option α` for an arbitrary type `α`
  of analyses, so a stored entry is `some v` with `v : Option α`, and
  `some none` is a stored empty analysis.
* The analysis functions `AnalyzeFusion` and `AnalyzeProducerConsumerFusion`
  are defined elsewhere; they are parameters, and every invocation is
  recorded in the list of calls an operation returns.
-/

namespace xla.gpu

/-- A `const HloInstruction*`: the identity of a node is its address. -/
abbrev NodeId := Nat

/-- A hash map (`absl::node_hash_map`, `absl::flat_hash_map`) as a partial
function: `m k = none` when `k` is not a key (`find` returns `end()`). -/
abbrev NodeMap (κ ν : Type) := κ → Option ν

namespace NodeMap

variable {κ ν : Type}

/-- The map with no keys. -/
def empty : NodeMap κ ν := fun _ => none

/-- The assignment `m[k] = v`. -/
def insert [DecidableEq κ] (m : NodeMap κ ν) (k : κ) (v : ν) : NodeMap κ ν :=
  fun j => if j = k then some v else m j

/-- The call `m.erase(k)`; nothing happens when `k` is not a key. -/
def erase [DecidableEq κ] (m : NodeMap κ ν) (k : κ) : NodeMap κ ν :=
  fun j => if j = k then none else m j

/-- The statement `m[k].push_back(x)`: `operator[]` first creates an empty
vector when `k` is not a key. -/
def pushBack [DecidableEq κ] (m : NodeMap κ (List NodeId)) (k : κ) (x : NodeId) :
    NodeMap κ (List NodeId) :=
  insert m k ((m k).getD [] ++ [x])

end NodeMap

/-- An invocation of one of the two external analysis functions, with the
arguments it was given. -/
inductive Call (δ : Type) where
  | AnalyzeFusion (instruction : NodeId) (device_info : δ)
  | AnalyzeProducerConsumerFusion (producer consumer : NodeId) (device_info : δ)

/-- Whether a call is `AnalyzeFusion` of the node `n`. -/
def Call.isFusionOf {δ : Type} (n : NodeId) : Call δ → Bool
  | .AnalyzeFusion i _ => decide (i = n)
  | .AnalyzeProducerConsumerFusion _ _ _ => false

/-- Whether a call is `AnalyzeProducerConsumerFusion` of the pair `(p, c)`. -/
def Call.isProducerConsumerOf {δ : Type} (p c : NodeId) : Call δ → Bool
  | .AnalyzeFusion _ _ => false
  | .AnalyzeProducerConsumerFusion i j _ => decide (i = p) && decide (j = c)

/-- Modelled from the spec: the class declaration lives in
`fusion_analysis_cache.h`, which is missing; the members are those the
source file uses, with the types of the spec's data model (SingleStore,
PairStore, consumers-by-producer, producers-by-consumer and the device
descriptor). The mutex is left out: operations run one at a time. -/
structure HloFusionAnalysisCache (α δ : Type) where
  device_info_ : δ
  analyses_ : NodeMap NodeId (Option α)
  producer_consumer_analyses_ : NodeMap (NodeId × NodeId) (Option α)
  consumers_for_producers_ : NodeMap NodeId (List NodeId)
  producers_for_consumers_ : NodeMap NodeId (List NodeId)

/-- What a `Get` leaves behind: the cache after the call, the
`std::optional` the returned reference points to, and the analysis
functions invoked on the way, in order. -/
structure GetResult (α δ : Type) where
  cache : HloFusionAnalysisCache α δ
  value : Option α
  calls : List (Call δ)

namespace HloFusionAnalysisCache

variable {α δ : Type}

/-- Modelled from the spec: the constructor is in the missing header; "all
maps start empty at cache construction" and the device descriptor is
"supplied once at cache construction". -/
def construct (device_info : δ) : HloFusionAnalysisCache α δ where
  device_info_ := device_info
  analyses_ := NodeMap.empty
  producer_consumer_analyses_ := NodeMap.empty
  consumers_for_producers_ := NodeMap.empty
  producers_for_consumers_ := NodeMap.empty

/-- Lines 34-43 of `Get(instruction)`: under the exclusive lock, look the
key up again; return the entry found, or else store `analysis` and return
it. -/
def GetLocked (self : HloFusionAnalysisCache α δ) (instruction : NodeId)
    (analysis : Option α) : HloFusionAnalysisCache α δ × Option α :=
  match self.analyses_ instruction with
  | some stored => (self, stored)
  | none =>
    ({ self with analyses_ := self.analyses_.insert instruction analysis }, analysis)

/-- The overload `Get(const HloInstruction& instruction)`. -/
def Get (AnalyzeFusion : NodeId → δ → Option α)
    (self : HloFusionAnalysisCache α δ) (instruction : NodeId) : GetResult α δ :=
  match self.analyses_ instruction with
  | some stored => ⟨self, stored, []⟩
  | none =>
    let analysis := AnalyzeFusion instruction self.device_info_
    let r := GetLocked self instruction analysis
    ⟨r.1, r.2, [Call.AnalyzeFusion instruction self.device_info_]⟩

/-- Lines 60-71 of `Get(producer, consumer)`: under the exclusive lock,
look the key up again; return the entry found, or else push both nodes on
the reverse index, store `analysis` and return it. -/
def GetPairLocked (self : HloFusionAnalysisCache α δ) (producer consumer : NodeId)
    (analysis : Option α) : HloFusionAnalysisCache α δ × Option α :=
  match self.producer_consumer_analyses_ (producer, consumer) with
  | some stored => (self, stored)
  | none =>
    ({ self with
        producers_for_consumers_ := self.producers_for_consumers_.pushBack consumer producer
        consumers_for_producers_ := self.consumers_for_producers_.pushBack producer consumer
        producer_consumer_analyses_ :=
          self.producer_consumer_analyses_.insert (producer, consumer) analysis },
     analysis)

/-- The overload `Get(const HloInstruction& producer, const HloInstruction&
consumer)`. -/
def GetPair (AnalyzeProducerConsumerFusion : NodeId → NodeId → δ → Option α)
    (self : HloFusionAnalysisCache α δ) (producer consumer : NodeId) : GetResult α δ :=
  match self.producer_consumer_analyses_ (producer, consumer) with
  | some stored => ⟨self, stored, []⟩
  | none =>
    let analysis := AnalyzeProducerConsumerFusion producer consumer self.device_info_
    let r := GetPairLocked self producer consumer analysis
    ⟨r.1, r.2, [Call.AnalyzeProducerConsumerFusion producer consumer self.device_info_]⟩

/-- The loop `for (consumer : consumers) erase({instruction, consumer})`. -/
def eraseConsumers (m : NodeMap (NodeId × NodeId) (Option α)) (instruction : NodeId)
    (consumers : List NodeId) : NodeMap (NodeId × NodeId) (Option α) :=
  consumers.foldl (fun acc consumer => acc.erase (instruction, consumer)) m

/-- The loop `for (producer : producers) erase({producer, instruction})`. -/
def eraseProducers (m : NodeMap (NodeId × NodeId) (Option α)) (instruction : NodeId)
    (producers : List NodeId) : NodeMap (NodeId × NodeId) (Option α) :=
  producers.foldl (fun acc producer => acc.erase (producer, instruction)) m

/-- `Invalidate(const HloInstruction& instruction)`. -/
def Invalidate (self : HloFusionAnalysisCache α δ) (instruction : NodeId) :
    HloFusionAnalysisCache α δ :=
  let s1 := { self with analyses_ := self.analyses_.erase instruction }
  let s2 :=
    match s1.consumers_for_producers_ instruction with
    | some consumers =>
      { s1 with
          consumers_for_producers_ := s1.consumers_for_producers_.erase instruction
          producer_consumer_analyses_ :=
            eraseConsumers s1.producer_consumer_analyses_ instruction consumers }
    | none => s1
  match s2.producers_for_consumers_ instruction with
  | some producers =>
    { s2 with
        producers_for_consumers_ := s2.producers_for_consumers_.erase instruction
        producer_consumer_analyses_ :=
          eraseProducers s2.producer_consumer_analyses_ instruction producers }
  | none => s2

end HloFusionAnalysisCache

/-- One public operation of the cache with its arguments. -/
inductive Op where
  | getSingle (n : NodeId)
  | getPair (p c : NodeId)
  | invalidate (n : NodeId)
  deriving DecidableEq

section Run

variable {α δ : Type}
variable (AnalyzeFusion : NodeId → δ → Option α)
variable (AnalyzeProducerConsumerFusion : NodeId → NodeId → δ → Option α)

/-- The cache after one operation. -/
def stepCache (s : HloFusionAnalysisCache α δ) : Op → HloFusionAnalysisCache α δ
  | .getSingle n => (s.Get AnalyzeFusion n).cache
  | .getPair p c => (s.GetPair AnalyzeProducerConsumerFusion p c).cache
  | .invalidate n => s.Invalidate n

/-- The analysis functions one operation invokes. -/
def stepCalls (s : HloFusionAnalysisCache α δ) : Op → List (Call δ)
  | .getSingle n => (s.Get AnalyzeFusion n).calls
  | .getPair p c => (s.GetPair AnalyzeProducerConsumerFusion p c).calls
  | .invalidate _ => []

/-- The cache after a sequence of operations, run in order. -/
def runCache (s : HloFusionAnalysisCache α δ) : List Op → HloFusionAnalysisCache α δ
  | [] => s
  | op :: ops =>
    runCache (stepCache AnalyzeFusion AnalyzeProducerConsumerFusion s op) ops

/-- All analysis invocations of a sequence of operations, in order. -/
def runCalls (s : HloFusionAnalysisCache α δ) : List Op → List (Call δ)
  | [] => []
  | op :: ops =>
    stepCalls AnalyzeFusion AnalyzeProducerConsumerFusion s op ++
      runCalls (stepCache AnalyzeFusion AnalyzeProducerConsumerFusion s op) ops

end Run

/-- Whether an operation is a query (`Get`) with `n` among its arguments. -/
def Op.queries (n : NodeId) : Op → Bool
  | .getSingle m => decide (m = n)
  | .getPair p c => decide (p = n) || decide (c = n)
  | .invalidate _ => false

/-- Every stored entry holds what the analysis function gives for its key
and the device descriptor of the cache. -/
def Transparent {α δ : Type} (AnalyzeFusion : NodeId → δ → Option α)
    (AnalyzeProducerConsumerFusion : NodeId → NodeId → δ → Option α)
    (s : HloFusionAnalysisCache α δ) : Prop :=
  (∀ n v, s.analyses_ n = some v → v = AnalyzeFusion n s.device_info_) ∧
    ∀ p c v, s.producer_consumer_analyses_ (p, c) = some v →
      v = AnalyzeProducerConsumerFusion p c s.device_info_

/-- Reverse-index coverage: every key `(p, c)` of the pair store is listed
under `p` in `consumers_for_producers_` and under `c` in
`producers_for_consumers_`. -/
def Covered {α δ : Type} (s : HloFusionAnalysisCache α δ) : Prop :=
  ∀ p c, s.producer_consumer_analyses_ (p, c) ≠ none →
    (∃ l, s.consumers_for_producers_ p = some l ∧ c ∈ l) ∧
      ∃ l, s.producers_for_consumers_ c = some l ∧ p ∈ l

/-- A sample single-node analysis: empty on node 0, otherwise a number
made of the node and the device. -/
def sampleAnalyzeFusion (n : NodeId) (d : Nat) : Option Nat :=
  if n = 0 then none else some (n + d)

/-- A sample pair analysis: empty when the producer is node 0, otherwise a
number that tells `(p, c)` from `(c, p)`. -/
def sampleAnalyzeProducerConsumerFusion (p c : NodeId) (d : Nat) : Option Nat :=
  if p = 0 then none else some (10 * p + c + d)

/-- The cache after a sequence of operations from the empty cache for
device 7, with the sample analyses. -/
def sampleRun (ops : List Op) : HloFusionAnalysisCache Nat Nat :=
  runCache sampleAnalyzeFusion sampleAnalyzeProducerConsumerFusion
    (HloFusionAnalysisCache.construct 7) ops

/-- The nodes an operation queries: the arguments of a `Get`. -/
def Op.queried : Op → List NodeId
  | .getSingle n => [n]
  | .getPair p c => [p, c]
  | .invalidate _ => []

/-! ### Two threads in `Get(instruction)`

The mutex makes three regions of `Get(instruction)` atomic: the lookup
under the reader lock (lines 24-30), the call of `AnalyzeFusion` outside
any lock (lines 32-33), and the re-check with insert or discard under the
exclusive lock (lines 34-43). A run of two threads is an interleaving of
these regions, given as the list of the threads that move, in order. -/

/-- Where a thread stands inside `Get(instruction)`. -/
inductive Phase (α : Type) where
  /-- Before the lookup under the reader lock. -/
  | start
  /-- The lookup found nothing; `AnalyzeFusion` is not yet called. -/
  | missed
  /-- The thread holds its own `analysis` and waits for the exclusive lock. -/
  | computed (analysis : Option α)
  /-- The call has returned a reference to `value`. -/
  | returned (value : Option α)

/-- Whether the call of the thread has returned. -/
def Phase.isReturned {α : Type} : Phase α → Bool
  | .returned _ => true
  | _ => false

/-- How far a thread is in `Get(instruction)`: 0 before the first lookup, 1
after a lookup that found nothing, 2 once it holds its analysis, 3 once the
call has returned. -/
def Phase.rank {α : Type} : Phase α → Nat
  | .start => 0
  | .missed => 1
  | .computed _ => 2
  | .returned _ => 3

/-- The branch a thread takes under the exclusive lock: line 43 stores its
analysis, lines 39-41 discard it and return the entry found. -/
inductive Commit where
  | stored (thread : Bool)
  | discarded (thread : Bool)
  deriving DecidableEq

/-- The shared cache, the phase of each of the two threads (`false` and
`true`), the analysis calls made so far and the commits made so far. -/
structure Race (α δ : Type) where
  cache : HloFusionAnalysisCache α δ
  phase : Bool → Phase α
  calls : List (Call δ)
  commits : List Commit

namespace Race

variable {α δ : Type}

/-- Both threads about to call `Get(instruction)` on the cache `s`. -/
def init (s : HloFusionAnalysisCache α δ) : Race α δ where
  cache := s
  phase := fun _ => Phase.start
  calls := []
  commits := []

/-- The phase map with thread `t` moved to `ph`. -/
def setPhase (phase : Bool → Phase α) (t : Bool) (ph : Phase α) : Bool → Phase α :=
  fun u => if u = t then ph else phase u

/-- Thread `t` runs its next atomic region of `Get(n)`. `analyze t` is what
the call of `AnalyzeFusion` by thread `t` returns: in the program both
threads call the same function, and the two are kept apart here so that the
analysis one thread computed can be told from the other's. -/
def step (analyze : Bool → NodeId → δ → Option α) (n : NodeId) (r : Race α δ)
    (t : Bool) : Race α δ :=
  match r.phase t with
  | .start =>
    match r.cache.analyses_ n with
    | some stored => { r with phase := setPhase r.phase t (.returned stored) }
    | none => { r with phase := setPhase r.phase t .missed }
  | .missed =>
    { r with
        phase := setPhase r.phase t (.computed (analyze t n r.cache.device_info_))
        calls := r.calls ++ [Call.AnalyzeFusion n r.cache.device_info_] }
  | .computed analysis =>
    { r with
        cache := (r.cache.GetLocked n analysis).1
        phase := setPhase r.phase t (.returned (r.cache.GetLocked n analysis).2)
        commits := r.commits ++
          [if (r.cache.analyses_ n).isSome then Commit.discarded t else Commit.stored t] }
  | .returned _ => r

/-- The race after the threads of `sched` have moved, in order. -/
def run (analyze : Bool → NodeId → δ → Option α) (n : NodeId) (r : Race α δ) :
    List Bool → Race α δ
  | [] => r
  | t :: ts => run analyze n (step analyze n r t) ts

/-- No thread has taken the exclusive lock yet: the cache is still `s`,
no call has returned, and a thread that has computed holds its own
analysis. -/
def Pending (analyze : Bool → NodeId → δ → Option α) (s : HloFusionAnalysisCache α δ)
    (n : NodeId) (r : Race α δ) : Prop :=
  r.cache = s ∧ r.commits = [] ∧ ∀ t,
    r.phase t = .start ∨ r.phase t = .missed ∨
      r.phase t = .computed (analyze t n s.device_info_)

/-- Thread `w` has stored its analysis: the cache is `s` with that one
entry added under `n`, thread `w` has returned it, and the other thread has
either not committed yet or has discarded its own analysis and returned the
stored one. -/
def Won (analyze : Bool → NodeId → δ → Option α) (s : HloFusionAnalysisCache α δ)
    (n : NodeId) (w : Bool) (r : Race α δ) : Prop :=
  r.cache = { s with analyses_ := s.analyses_.insert n (analyze w n s.device_info_) } ∧
    r.phase w = .returned (analyze w n s.device_info_) ∧
    ((r.commits = [Commit.stored w] ∧
        ((r.phase (!w)).isReturned = false ∨
          r.phase (!w) = .returned (analyze w n s.device_info_))) ∨
      (r.commits = [Commit.stored w, Commit.discarded (!w)] ∧
        r.phase (!w) = .returned (analyze w n s.device_info_)))

end Race

/-- The sample analysis as each of two threads computes it: thread `true`
gets a different number, so the two computed analyses can be told apart. -/
def sampleThreadAnalyze (t : Bool) (n : NodeId) (d : Nat) : Option Nat :=
  if t then some (100 + n + d) else some (n + d)

end xla.gpu

namespace xla.gpu

/-! ## Lookups in the maps -/

namespace NodeMap

variable {κ ν : Type} [DecidableEq κ]

theorem insert_same (m : NodeMap κ ν) (k : κ) (v : ν) : insert m k v k = some v := by
  simp [insert]

theorem insert_other (m : NodeMap κ ν) {j k : κ} (v : ν) (h : j ≠ k) :
    insert m k v j = m j := by
  simp [insert, h]

theorem erase_same (m : NodeMap κ ν) (k : κ) : erase m k k = none := by
  simp [erase]

theorem erase_other (m : NodeMap κ ν) {j k : κ} (h : j ≠ k) : erase m k j = m j := by
  simp [erase, h]

theorem erase_absent (m : NodeMap κ ν) (k : κ) (h : m k = none) : erase m k = m := by
  funext j
  by_cases hj : j = k
  · subst hj; simp [erase, h]
  · simp [erase, hj]

theorem erase_erase (m : NodeMap κ ν) (k : κ) : erase (erase m k) k = erase m k :=
  erase_absent _ _ (erase_same m k)

end NodeMap

namespace HloFusionAnalysisCache

variable {α δ : Type}

theorem eraseConsumers_apply (m : NodeMap (NodeId × NodeId) (Option α)) (n : NodeId)
    (cs : List NodeId) (p c : NodeId) :
    eraseConsumers m n cs (p, c) = if p = n ∧ c ∈ cs then none else m (p, c) := by
  induction cs generalizing m with
  | nil => simp [eraseConsumers]
  | cons x xs ih =>
    have hstep : eraseConsumers m n (x :: xs) = eraseConsumers (m.erase (n, x)) n xs := rfl
    rw [hstep, ih]
    by_cases hp : p = n
    · by_cases hx : c = x
      · simp [hp, hx, NodeMap.erase]
      · by_cases hc : c ∈ xs
        · simp [hp, hc]
        · simp [hp, hx, hc, NodeMap.erase]
    · simp [hp, NodeMap.erase]

theorem eraseProducers_apply (m : NodeMap (NodeId × NodeId) (Option α)) (n : NodeId)
    (ps : List NodeId) (p c : NodeId) :
    eraseProducers m n ps (p, c) = if c = n ∧ p ∈ ps then none else m (p, c) := by
  induction ps generalizing m with
  | nil => simp [eraseProducers]
  | cons x xs ih =>
    have hstep : eraseProducers m n (x :: xs) = eraseProducers (m.erase (x, n)) n xs := rfl
    rw [hstep, ih]
    by_cases hc : c = n
    · by_cases hx : p = x
      · simp [hc, hx, NodeMap.erase]
      · by_cases hp : p ∈ xs
        · simp [hc, hp]
        · simp [hc, hx, hp, NodeMap.erase]
    · simp [hc, NodeMap.erase]

/-- `Invalidate` in closed form: the two `if (auto ... = extract(...))`
branches written with the extracted vector defaulting to the empty one. -/
theorem Invalidate_eq (s : HloFusionAnalysisCache α δ) (n : NodeId) :
    s.Invalidate n =
      { device_info_ := s.device_info_
        analyses_ := s.analyses_.erase n
        producer_consumer_analyses_ :=
          eraseProducers
            (eraseConsumers s.producer_consumer_analyses_ n
              ((s.consumers_for_producers_ n).getD []))
            n ((s.producers_for_consumers_ n).getD [])
        consumers_for_producers_ := s.consumers_for_producers_.erase n
        producers_for_consumers_ := s.producers_for_consumers_.erase n } := by
  cases hc : s.consumers_for_producers_ n with
  | none =>
    cases hp : s.producers_for_consumers_ n with
    | none =>
      simp [Invalidate, hc, hp, NodeMap.erase_absent, eraseConsumers, eraseProducers]
    | some ps =>
      simp [Invalidate, hc, hp, NodeMap.erase_absent, eraseConsumers]
  | some cs =>
    cases hp : s.producers_for_consumers_ n with
    | none =>
      simp [Invalidate, hc, hp, NodeMap.erase_absent, eraseProducers]
    | some ps =>
      simp [Invalidate, hc, hp]

end HloFusionAnalysisCache

end xla.gpu

namespace xla.gpu

/-! ## The two queries, hit and miss -/

namespace HloFusionAnalysisCache

variable {α δ : Type}
variable (AnalyzeFusion : NodeId → δ → Option α)
variable (AnalyzeProducerConsumerFusion : NodeId → NodeId → δ → Option α)

theorem Get_hit {s : HloFusionAnalysisCache α δ} {n : NodeId} {v : Option α}
    (h : s.analyses_ n = some v) : s.Get AnalyzeFusion n = ⟨s, v, []⟩ := by
  simp [Get, h]

theorem Get_miss {s : HloFusionAnalysisCache α δ} {n : NodeId}
    (h : s.analyses_ n = none) :
    s.Get AnalyzeFusion n =
      ⟨{ s with analyses_ := s.analyses_.insert n (AnalyzeFusion n s.device_info_) },
        AnalyzeFusion n s.device_info_, [Call.AnalyzeFusion n s.device_info_]⟩ := by
  simp [Get, GetLocked, h]

theorem GetPair_hit {s : HloFusionAnalysisCache α δ} {p c : NodeId} {v : Option α}
    (h : s.producer_consumer_analyses_ (p, c) = some v) :
    s.GetPair AnalyzeProducerConsumerFusion p c = ⟨s, v, []⟩ := by
  simp [GetPair, h]

theorem GetPair_miss {s : HloFusionAnalysisCache α δ} {p c : NodeId}
    (h : s.producer_consumer_analyses_ (p, c) = none) :
    s.GetPair AnalyzeProducerConsumerFusion p c =
      ⟨{ s with
          producers_for_consumers_ := s.producers_for_consumers_.pushBack c p
          consumers_for_producers_ := s.consumers_for_producers_.pushBack p c
          producer_consumer_analyses_ :=
            s.producer_consumer_analyses_.insert (p, c)
              (AnalyzeProducerConsumerFusion p c s.device_info_) },
        AnalyzeProducerConsumerFusion p c s.device_info_,
        [Call.AnalyzeProducerConsumerFusion p c s.device_info_]⟩ := by
  simp [GetPair, GetPairLocked, h]

theorem Get_device (s : HloFusionAnalysisCache α δ) (n : NodeId) :
    (s.Get AnalyzeFusion n).cache.device_info_ = s.device_info_ := by
  cases h : s.analyses_ n with
  | none => rw [Get_miss AnalyzeFusion h]
  | some v => rw [Get_hit AnalyzeFusion h]

theorem Get_pairs (s : HloFusionAnalysisCache α δ) (n : NodeId) :
    (s.Get AnalyzeFusion n).cache.producer_consumer_analyses_ =
        s.producer_consumer_analyses_ ∧
      (s.Get AnalyzeFusion n).cache.consumers_for_producers_ =
        s.consumers_for_producers_ ∧
      (s.Get AnalyzeFusion n).cache.producers_for_consumers_ =
        s.producers_for_consumers_ := by
  cases h : s.analyses_ n with
  | none => rw [Get_miss AnalyzeFusion h]; exact ⟨rfl, rfl, rfl⟩
  | some v => rw [Get_hit AnalyzeFusion h]; exact ⟨rfl, rfl, rfl⟩

theorem Get_analyses_other (s : HloFusionAnalysisCache α δ) {n m : NodeId} (h : m ≠ n) :
    (s.Get AnalyzeFusion n).cache.analyses_ m = s.analyses_ m := by
  cases hn : s.analyses_ n with
  | none => rw [Get_miss AnalyzeFusion hn]; exact NodeMap.insert_other _ _ h
  | some v => rw [Get_hit AnalyzeFusion hn]

theorem Get_analyses_kept (s : HloFusionAnalysisCache α δ) (n : NodeId) {m : NodeId}
    {v : Option α} (h : s.analyses_ m = some v) :
    (s.Get AnalyzeFusion n).cache.analyses_ m = some v := by
  by_cases hm : m = n
  · subst hm; rw [Get_hit AnalyzeFusion h]; exact h
  · rw [Get_analyses_other AnalyzeFusion s hm]; exact h

theorem GetPair_device (s : HloFusionAnalysisCache α δ) (p c : NodeId) :
    (s.GetPair AnalyzeProducerConsumerFusion p c).cache.device_info_ = s.device_info_ := by
  cases h : s.producer_consumer_analyses_ (p, c) with
  | none => rw [GetPair_miss AnalyzeProducerConsumerFusion h]
  | some v => rw [GetPair_hit AnalyzeProducerConsumerFusion h]

theorem GetPair_analyses (s : HloFusionAnalysisCache α δ) (p c : NodeId) :
    (s.GetPair AnalyzeProducerConsumerFusion p c).cache.analyses_ = s.analyses_ := by
  cases h : s.producer_consumer_analyses_ (p, c) with
  | none => rw [GetPair_miss AnalyzeProducerConsumerFusion h]
  | some v => rw [GetPair_hit AnalyzeProducerConsumerFusion h]

theorem GetPair_pairs_other (s : HloFusionAnalysisCache α δ) {p c : NodeId}
    {k : NodeId × NodeId} (h : k ≠ (p, c)) :
    (s.GetPair AnalyzeProducerConsumerFusion p c).cache.producer_consumer_analyses_ k =
      s.producer_consumer_analyses_ k := by
  cases hn : s.producer_consumer_analyses_ (p, c) with
  | none => rw [GetPair_miss AnalyzeProducerConsumerFusion hn]; exact NodeMap.insert_other _ _ h
  | some v => rw [GetPair_hit AnalyzeProducerConsumerFusion hn]

theorem GetPair_pairs_kept (s : HloFusionAnalysisCache α δ) (p c : NodeId)
    {k : NodeId × NodeId} {v : Option α} (h : s.producer_consumer_analyses_ k = some v) :
    (s.GetPair AnalyzeProducerConsumerFusion p c).cache.producer_consumer_analyses_ k =
      some v := by
  by_cases hk : k = (p, c)
  · subst hk; rw [GetPair_hit AnalyzeProducerConsumerFusion h]; exact h
  · rw [GetPair_pairs_other AnalyzeProducerConsumerFusion s hk]; exact h

/-- After `Get(producer, consumer)` the pair is a key of the pair store. -/
theorem GetPair_pairs_self (s : HloFusionAnalysisCache α δ) (p c : NodeId) :
    (s.GetPair AnalyzeProducerConsumerFusion p c).cache.producer_consumer_analyses_ (p, c) =
      some (s.GetPair AnalyzeProducerConsumerFusion p c).value := by
  cases hn : s.producer_consumer_analyses_ (p, c) with
  | none => rw [GetPair_miss AnalyzeProducerConsumerFusion hn]; exact NodeMap.insert_same _ _ _
  | some v => rw [GetPair_hit AnalyzeProducerConsumerFusion hn]; exact hn

/-- After `Get(instruction)` the node is a key of the single store. -/
theorem Get_analyses_self (s : HloFusionAnalysisCache α δ) (n : NodeId) :
    (s.Get AnalyzeFusion n).cache.analyses_ n = some (s.Get AnalyzeFusion n).value := by
  cases hn : s.analyses_ n with
  | none => rw [Get_miss AnalyzeFusion hn]; exact NodeMap.insert_same _ _ _
  | some v => rw [Get_hit AnalyzeFusion hn]; exact hn

/-- `Invalidate` only erases from the pair store. -/
theorem Invalidate_pairs_sub (s : HloFusionAnalysisCache α δ) (n : NodeId)
    (k : NodeId × NodeId) :
    (s.Invalidate n).producer_consumer_analyses_ k = none ∨
      (s.Invalidate n).producer_consumer_analyses_ k = s.producer_consumer_analyses_ k := by
  obtain ⟨p, c⟩ := k
  rw [Invalidate_eq]
  simp only [eraseProducers_apply, eraseConsumers_apply]
  split
  · exact Or.inl rfl
  · split
    · exact Or.inl rfl
    · exact Or.inr rfl

/-- `Invalidate(n)` keeps every pair entry that does not involve `n`. -/
theorem Invalidate_pairs_other (s : HloFusionAnalysisCache α δ) {n p c : NodeId}
    (hp : p ≠ n) (hc : c ≠ n) :
    (s.Invalidate n).producer_consumer_analyses_ (p, c) =
      s.producer_consumer_analyses_ (p, c) := by
  rw [Invalidate_eq]
  simp [eraseProducers_apply, eraseConsumers_apply, hp, hc]

theorem Invalidate_analyses (s : HloFusionAnalysisCache α δ) (n : NodeId) :
    (s.Invalidate n).analyses_ = s.analyses_.erase n := by
  rw [Invalidate_eq]

theorem Invalidate_device (s : HloFusionAnalysisCache α δ) (n : NodeId) :
    (s.Invalidate n).device_info_ = s.device_info_ := by
  rw [Invalidate_eq]

theorem Invalidate_consumers (s : HloFusionAnalysisCache α δ) (n : NodeId) :
    (s.Invalidate n).consumers_for_producers_ = s.consumers_for_producers_.erase n := by
  rw [Invalidate_eq]

theorem Invalidate_producers (s : HloFusionAnalysisCache α δ) (n : NodeId) :
    (s.Invalidate n).producers_for_consumers_ = s.producers_for_consumers_.erase n := by
  rw [Invalidate_eq]

end HloFusionAnalysisCache

end xla.gpu

namespace xla.gpu

/-! ## Sequences of operations -/

section RunLemmas

variable {α δ : Type}
variable (AnalyzeFusion : NodeId → δ → Option α)
variable (AnalyzeProducerConsumerFusion : NodeId → NodeId → δ → Option α)

open HloFusionAnalysisCache

theorem runCache_append (s : HloFusionAnalysisCache α δ) (ops1 ops2 : List Op) :
    runCache AnalyzeFusion AnalyzeProducerConsumerFusion s (ops1 ++ ops2) =
      runCache AnalyzeFusion AnalyzeProducerConsumerFusion
        (runCache AnalyzeFusion AnalyzeProducerConsumerFusion s ops1) ops2 := by
  induction ops1 generalizing s with
  | nil => rfl
  | cons op ops ih => exact ih _

theorem runCalls_append (s : HloFusionAnalysisCache α δ) (ops1 ops2 : List Op) :
    runCalls AnalyzeFusion AnalyzeProducerConsumerFusion s (ops1 ++ ops2) =
      runCalls AnalyzeFusion AnalyzeProducerConsumerFusion s ops1 ++
        runCalls AnalyzeFusion AnalyzeProducerConsumerFusion
          (runCache AnalyzeFusion AnalyzeProducerConsumerFusion s ops1) ops2 := by
  induction ops1 generalizing s with
  | nil => rfl
  | cons op ops ih =>
    show _ ++ runCalls _ _ _ (ops ++ ops2) = (_ ++ _) ++ _
    rw [ih, List.append_assoc]
    rfl

theorem stepCache_device (s : HloFusionAnalysisCache α δ) (op : Op) :
    (stepCache AnalyzeFusion AnalyzeProducerConsumerFusion s op).device_info_ =
      s.device_info_ := by
  cases op with
  | getSingle n => exact Get_device AnalyzeFusion s n
  | getPair p c => exact GetPair_device AnalyzeProducerConsumerFusion s p c
  | invalidate n => exact Invalidate_device s n

theorem runCache_device (s : HloFusionAnalysisCache α δ) (ops : List Op) :
    (runCache AnalyzeFusion AnalyzeProducerConsumerFusion s ops).device_info_ =
      s.device_info_ := by
  induction ops generalizing s with
  | nil => rfl
  | cons op ops ih =>
    simp only [runCache]
    rw [ih, stepCache_device]

/-- An invariant of every operation that holds at the start holds after
any sequence of operations. -/
theorem runCache_invariant (P : HloFusionAnalysisCache α δ → Prop)
    (hstep : ∀ s op, P s →
      P (stepCache AnalyzeFusion AnalyzeProducerConsumerFusion s op))
    (s : HloFusionAnalysisCache α δ) (hs : P s) (ops : List Op) :
    P (runCache AnalyzeFusion AnalyzeProducerConsumerFusion s ops) := by
  induction ops generalizing s with
  | nil => exact hs
  | cons op ops ih => exact ih _ (hstep s op hs)

/-! ### Transparency -/

theorem Transparent_construct (D : δ) :
    Transparent AnalyzeFusion AnalyzeProducerConsumerFusion
      (construct D : HloFusionAnalysisCache α δ) := by
  constructor
  · intro n v h; simp [construct, NodeMap.empty] at h
  · intro p c v h; simp [construct, NodeMap.empty] at h

theorem Transparent_step (s : HloFusionAnalysisCache α δ) (op : Op)
    (hs : Transparent AnalyzeFusion AnalyzeProducerConsumerFusion s) :
    Transparent AnalyzeFusion AnalyzeProducerConsumerFusion
      (stepCache AnalyzeFusion AnalyzeProducerConsumerFusion s op) := by
  obtain ⟨h1, h2⟩ := hs
  cases op with
  | getSingle n =>
    refine ⟨?_, ?_⟩
    · intro m v hv
      simp only [stepCache] at hv ⊢
      rw [Get_device]
      by_cases hm : m = n
      · subst hm
        cases hn : s.analyses_ m with
        | none =>
          rw [Get_miss AnalyzeFusion hn] at hv
          simp only [NodeMap.insert_same, Option.some.injEq] at hv
          exact hv.symm
        | some w =>
          rw [Get_hit AnalyzeFusion hn] at hv
          exact h1 m v hv
      · rw [Get_analyses_other AnalyzeFusion s hm] at hv
        exact h1 m v hv
    · intro p c v hv
      simp only [stepCache] at hv ⊢
      rw [Get_device]
      rw [(Get_pairs AnalyzeFusion s n).1] at hv
      exact h2 p c v hv
  | getPair p c =>
    refine ⟨?_, ?_⟩
    · intro m v hv
      simp only [stepCache] at hv ⊢
      rw [GetPair_device]
      rw [GetPair_analyses] at hv
      exact h1 m v hv
    · intro p1 c1 v hv
      simp only [stepCache] at hv ⊢
      rw [GetPair_device]
      by_cases hk : (p1, c1) = (p, c)
      · obtain ⟨rfl, rfl⟩ := Prod.mk.inj hk
        cases hn : s.producer_consumer_analyses_ (p1, c1) with
        | none =>
          rw [GetPair_miss AnalyzeProducerConsumerFusion hn] at hv
          simp only [NodeMap.insert_same, Option.some.injEq] at hv
          exact hv.symm
        | some w =>
          rw [GetPair_hit AnalyzeProducerConsumerFusion hn] at hv
          exact h2 p1 c1 v hv
      · rw [GetPair_pairs_other AnalyzeProducerConsumerFusion s hk] at hv
        exact h2 p1 c1 v hv
  | invalidate n =>
    refine ⟨?_, ?_⟩
    · intro m v hv
      simp only [stepCache] at hv ⊢
      rw [Invalidate_device]
      rw [Invalidate_analyses] at hv
      by_cases hm : m = n
      · subst hm; simp [NodeMap.erase_same] at hv
      · rw [NodeMap.erase_other _ hm] at hv
        exact h1 m v hv
    · intro p c v hv
      simp only [stepCache] at hv ⊢
      rw [Invalidate_device]
      rcases Invalidate_pairs_sub s n (p, c) with h | h
      · rw [h] at hv; cases hv
      · rw [h] at hv; exact h2 p c v hv

theorem Transparent_run (D : δ) (ops : List Op) :
    Transparent AnalyzeFusion AnalyzeProducerConsumerFusion
      (runCache AnalyzeFusion AnalyzeProducerConsumerFusion (construct D) ops) :=
  runCache_invariant AnalyzeFusion AnalyzeProducerConsumerFusion _
    (Transparent_step AnalyzeFusion AnalyzeProducerConsumerFusion) _
    (Transparent_construct AnalyzeFusion AnalyzeProducerConsumerFusion D) ops

end RunLemmas

end xla.gpu

namespace xla.gpu

/-! ## Reverse-index coverage -/

section CoverageLemmas

variable {α δ : Type}
variable (AnalyzeFusion : NodeId → δ → Option α)
variable (AnalyzeProducerConsumerFusion : NodeId → NodeId → δ → Option α)

open HloFusionAnalysisCache

theorem pushBack_self (m : NodeMap NodeId (List NodeId)) (k x : NodeId) :
    ∃ l, m.pushBack k x k = some l ∧ x ∈ l :=
  ⟨_, NodeMap.insert_same _ _ _, by simp⟩

theorem pushBack_mono (m : NodeMap NodeId (List NodeId)) (k x : NodeId) {j y : NodeId}
    (h : ∃ l, m j = some l ∧ y ∈ l) : ∃ l, m.pushBack k x j = some l ∧ y ∈ l := by
  obtain ⟨l, hl, hy⟩ := h
  by_cases hj : j = k
  · subst hj
    refine ⟨l ++ [x], ?_, by simp [hy]⟩
    simp [NodeMap.pushBack, NodeMap.insert, hl]
  · exact ⟨l, by simp [NodeMap.pushBack, NodeMap.insert, hj, hl], hy⟩

theorem Covered_construct (D : δ) : Covered (construct D : HloFusionAnalysisCache α δ) := by
  intro p c h
  simp [construct, NodeMap.empty] at h

theorem Covered_Get (s : HloFusionAnalysisCache α δ) (n : NodeId) (hs : Covered s) :
    Covered (s.Get AnalyzeFusion n).cache := by
  obtain ⟨e1, e2, e3⟩ := Get_pairs AnalyzeFusion s n
  intro p c h
  rw [e1] at h
  rw [e2, e3]
  exact hs p c h

theorem Covered_GetPair (s : HloFusionAnalysisCache α δ) (p c : NodeId) (hs : Covered s) :
    Covered (s.GetPair AnalyzeProducerConsumerFusion p c).cache := by
  cases hn : s.producer_consumer_analyses_ (p, c) with
  | some v => rw [GetPair_hit AnalyzeProducerConsumerFusion hn]; exact hs
  | none =>
    rw [GetPair_miss AnalyzeProducerConsumerFusion hn]
    intro p1 c1 h
    simp only at h ⊢
    by_cases hk : (p1, c1) = (p, c)
    · obtain ⟨rfl, rfl⟩ := Prod.mk.inj hk
      exact ⟨pushBack_self _ _ _, pushBack_self _ _ _⟩
    · rw [NodeMap.insert_other _ _ hk] at h
      obtain ⟨h1, h2⟩ := hs p1 c1 h
      exact ⟨pushBack_mono _ _ _ h1, pushBack_mono _ _ _ h2⟩

/-- In a covered cache `Invalidate(n)` leaves no pair entry with `n` on
either side. -/
theorem Invalidate_pairs_gone (s : HloFusionAnalysisCache α δ) (hs : Covered s)
    {n p c : NodeId} (h : p = n ∨ c = n) :
    (s.Invalidate n).producer_consumer_analyses_ (p, c) = none := by
  rw [Invalidate_eq]
  simp only [eraseProducers_apply, eraseConsumers_apply]
  cases hpc : s.producer_consumer_analyses_ (p, c) with
  | none => simp
  | some v =>
    have hne : s.producer_consumer_analyses_ (p, c) ≠ none := by simp [hpc]
    obtain ⟨⟨l1, hl1, hc1⟩, ⟨l2, hl2, hp2⟩⟩ := hs p c hne
    by_cases hc : c = n
    · subst hc
      simp [hl2, hp2]
    · have hp : p = n := h.resolve_right hc
      subst hp
      simp [hl1, hc1]

theorem Covered_Invalidate (s : HloFusionAnalysisCache α δ) (n : NodeId) (hs : Covered s) :
    Covered (s.Invalidate n) := by
  intro p c h
  have hp : p ≠ n := fun e => h (Invalidate_pairs_gone s hs (Or.inl e))
  have hc : c ≠ n := fun e => h (Invalidate_pairs_gone s hs (Or.inr e))
  rw [Invalidate_pairs_other s hp hc] at h
  rw [Invalidate_consumers, Invalidate_producers, NodeMap.erase_other _ hp,
    NodeMap.erase_other _ hc]
  exact hs p c h

theorem Covered_step (s : HloFusionAnalysisCache α δ) (op : Op) (hs : Covered s) :
    Covered (stepCache AnalyzeFusion AnalyzeProducerConsumerFusion s op) := by
  cases op with
  | getSingle n => exact Covered_Get AnalyzeFusion s n hs
  | getPair p c => exact Covered_GetPair AnalyzeProducerConsumerFusion s p c hs
  | invalidate n => exact Covered_Invalidate s n hs

theorem Covered_run (D : δ) (ops : List Op) :
    Covered (runCache AnalyzeFusion AnalyzeProducerConsumerFusion (construct D) ops) :=
  runCache_invariant AnalyzeFusion AnalyzeProducerConsumerFusion _
    (Covered_step AnalyzeFusion AnalyzeProducerConsumerFusion) _ (Covered_construct D) ops

end CoverageLemmas

/-! ## Entries that stay absent, entries that stay present -/

section Persistence

variable {α δ : Type}
variable (AnalyzeFusion : NodeId → δ → Option α)
variable (AnalyzeProducerConsumerFusion : NodeId → NodeId → δ → Option α)

open HloFusionAnalysisCache

/-- A node that is not a key of the single store stays so, and no
`AnalyzeFusion` call is made for it, as long as `Get` is not called on it. -/
theorem single_absent_run (n : NodeId) (ops : List Op) (s : HloFusionAnalysisCache α δ)
    (hs : s.analyses_ n = none) (hops : Op.getSingle n ∉ ops) :
    (runCache AnalyzeFusion AnalyzeProducerConsumerFusion s ops).analyses_ n = none ∧
      (runCalls AnalyzeFusion AnalyzeProducerConsumerFusion s ops).countP
        (Call.isFusionOf n) = 0 := by
  induction ops generalizing s with
  | nil => exact ⟨hs, rfl⟩
  | cons op ops ih =>
    have hop : Op.getSingle n ≠ op := fun e => hops (e ▸ List.mem_cons_self _ _)
    have hrest : Op.getSingle n ∉ ops := fun e => hops (List.mem_cons_of_mem _ e)
    have hstep : (stepCache AnalyzeFusion AnalyzeProducerConsumerFusion s op).analyses_ n = none ∧
        (stepCalls AnalyzeFusion AnalyzeProducerConsumerFusion s op).countP
          (Call.isFusionOf n) = 0 := by
      cases op with
      | getSingle m =>
        have hm : n ≠ m := fun e => hop (by rw [e])
        refine ⟨?_, ?_⟩
        · simp only [stepCache]
          rw [Get_analyses_other AnalyzeFusion s hm]; exact hs
        · simp only [stepCalls]
          cases hmm : s.analyses_ m with
          | none =>
            rw [Get_miss AnalyzeFusion hmm]
            simp [Call.isFusionOf, Ne.symm hm]
          | some v => rw [Get_hit AnalyzeFusion hmm]; rfl
      | getPair p c =>
        refine ⟨?_, ?_⟩
        · simp only [stepCache]
          rw [GetPair_analyses]; exact hs
        · simp only [stepCalls]
          cases hmm : s.producer_consumer_analyses_ (p, c) with
          | none =>
            rw [GetPair_miss AnalyzeProducerConsumerFusion hmm]
            simp [Call.isFusionOf]
          | some v => rw [GetPair_hit AnalyzeProducerConsumerFusion hmm]; rfl
      | invalidate m =>
        refine ⟨?_, rfl⟩
        simp only [stepCache]
        rw [Invalidate_analyses]
        simp [NodeMap.erase, hs]
    obtain ⟨h1, h2⟩ := ih _ hstep.1 hrest
    refine ⟨h1, ?_⟩
    simp only [runCalls, List.countP_append, hstep.2, h2]

/-- An entry of the single store stays as it is, and no `AnalyzeFusion`
call is made for its node, as long as the node is not invalidated. -/
theorem single_present_run (n : NodeId) (v : Option α) (ops : List Op)
    (s : HloFusionAnalysisCache α δ) (hs : s.analyses_ n = some v)
    (hops : Op.invalidate n ∉ ops) :
    (runCache AnalyzeFusion AnalyzeProducerConsumerFusion s ops).analyses_ n = some v ∧
      (runCalls AnalyzeFusion AnalyzeProducerConsumerFusion s ops).countP
        (Call.isFusionOf n) = 0 := by
  induction ops generalizing s with
  | nil => exact ⟨hs, rfl⟩
  | cons op ops ih =>
    have hop : Op.invalidate n ≠ op := fun e => hops (e ▸ List.mem_cons_self _ _)
    have hrest : Op.invalidate n ∉ ops := fun e => hops (List.mem_cons_of_mem _ e)
    have hstep : (stepCache AnalyzeFusion AnalyzeProducerConsumerFusion s op).analyses_ n =
          some v ∧
        (stepCalls AnalyzeFusion AnalyzeProducerConsumerFusion s op).countP
          (Call.isFusionOf n) = 0 := by
      cases op with
      | getSingle m =>
        refine ⟨Get_analyses_kept AnalyzeFusion s m hs, ?_⟩
        simp only [stepCalls]
        cases hmm : s.analyses_ m with
        | none =>
          have hm : m ≠ n := fun e => by rw [e, hs] at hmm; cases hmm
          rw [Get_miss AnalyzeFusion hmm]
          simp [Call.isFusionOf, hm]
        | some w => rw [Get_hit AnalyzeFusion hmm]; rfl
      | getPair p c =>
        refine ⟨?_, ?_⟩
        · simp only [stepCache]
          rw [GetPair_analyses]; exact hs
        · simp only [stepCalls]
          cases hmm : s.producer_consumer_analyses_ (p, c) with
          | none =>
            rw [GetPair_miss AnalyzeProducerConsumerFusion hmm]
            simp [Call.isFusionOf]
          | some w => rw [GetPair_hit AnalyzeProducerConsumerFusion hmm]; rfl
      | invalidate m =>
        have hm : n ≠ m := fun e => hop (by rw [e])
        refine ⟨?_, rfl⟩
        simp only [stepCache]
        rw [Invalidate_analyses, NodeMap.erase_other _ hm]; exact hs
    obtain ⟨h1, h2⟩ := ih _ hstep.1 hrest
    refine ⟨h1, ?_⟩
    simp only [runCalls, List.countP_append, hstep.2, h2]

/-- A pair that is not a key of the pair store stays so as long as
`Get` is not called on it. -/
theorem pair_absent_run (p c : NodeId) (ops : List Op) (s : HloFusionAnalysisCache α δ)
    (hs : s.producer_consumer_analyses_ (p, c) = none) (hops : Op.getPair p c ∉ ops) :
    (runCache AnalyzeFusion AnalyzeProducerConsumerFusion s ops).producer_consumer_analyses_
      (p, c) = none := by
  induction ops generalizing s with
  | nil => exact hs
  | cons op ops ih =>
    have hop : Op.getPair p c ≠ op := fun e => hops (e ▸ List.mem_cons_self _ _)
    have hrest : Op.getPair p c ∉ ops := fun e => hops (List.mem_cons_of_mem _ e)
    refine ih _ ?_ hrest
    cases op with
    | getSingle m =>
      simp only [stepCache]
      rw [(Get_pairs AnalyzeFusion s m).1]; exact hs
    | getPair p1 c1 =>
      have hk : (p, c) ≠ (p1, c1) := fun e => hop (by
        obtain ⟨rfl, rfl⟩ := Prod.mk.inj e; rfl)
      simp only [stepCache]
      rw [GetPair_pairs_other AnalyzeProducerConsumerFusion s hk]; exact hs
    | invalidate m =>
      simp only [stepCache]
      rcases Invalidate_pairs_sub s m (p, c) with h | h
      · exact h
      · rw [h]; exact hs

/-- An entry of the pair store stays as it is as long as neither of its
two nodes is invalidated. -/
theorem pair_present_run (p c : NodeId) (v : Option α) (ops : List Op)
    (s : HloFusionAnalysisCache α δ) (hs : s.producer_consumer_analyses_ (p, c) = some v)
    (hp : Op.invalidate p ∉ ops) (hc : Op.invalidate c ∉ ops) :
    (runCache AnalyzeFusion AnalyzeProducerConsumerFusion s ops).producer_consumer_analyses_
      (p, c) = some v := by
  induction ops generalizing s with
  | nil => exact hs
  | cons op ops ih =>
    have hp1 : Op.invalidate p ≠ op := fun e => hp (e ▸ List.mem_cons_self _ _)
    have hc1 : Op.invalidate c ≠ op := fun e => hc (e ▸ List.mem_cons_self _ _)
    refine ih _ ?_ (fun e => hp (List.mem_cons_of_mem _ e))
      (fun e => hc (List.mem_cons_of_mem _ e))
    cases op with
    | getSingle m =>
      simp only [stepCache]
      rw [(Get_pairs AnalyzeFusion s m).1]; exact hs
    | getPair p1 c1 => exact GetPair_pairs_kept AnalyzeProducerConsumerFusion s p1 c1 hs
    | invalidate m =>
      have hpm : p ≠ m := fun e => hp1 (by rw [e])
      have hcm : c ≠ m := fun e => hc1 (by rw [e])
      simp only [stepCache]
      rw [Invalidate_pairs_other s hpm hcm]; exact hs

/-- A node that no query ever named is a key of none of the three
node-keyed maps. -/
theorem unknown_run (n : NodeId) (ops : List Op) (s : HloFusionAnalysisCache α δ)
    (hs : s.analyses_ n = none ∧ s.consumers_for_producers_ n = none ∧
      s.producers_for_consumers_ n = none)
    (hops : ∀ op ∈ ops, Op.queries n op = false) :
    (runCache AnalyzeFusion AnalyzeProducerConsumerFusion s ops).analyses_ n = none ∧
      (runCache AnalyzeFusion AnalyzeProducerConsumerFusion s ops).consumers_for_producers_
        n = none ∧
      (runCache AnalyzeFusion AnalyzeProducerConsumerFusion s ops).producers_for_consumers_
        n = none := by
  induction ops generalizing s with
  | nil => exact hs
  | cons op ops ih =>
    have hop : Op.queries n op = false := hops op (List.mem_cons_self _ _)
    refine ih _ ?_ (fun o ho => hops o (List.mem_cons_of_mem _ ho))
    obtain ⟨h1, h2, h3⟩ := hs
    cases op with
    | getSingle m =>
      have hm : n ≠ m := fun e => by simp [Op.queries, e] at hop
      obtain ⟨_, e2, e3⟩ := Get_pairs AnalyzeFusion s m
      simp only [stepCache]
      rw [e2, e3, Get_analyses_other AnalyzeFusion s hm]
      exact ⟨h1, h2, h3⟩
    | getPair p c =>
      have hpc : p ≠ n ∧ c ≠ n := by simpa [Op.queries] using hop
      simp only [stepCache]
      rw [GetPair_analyses]
      refine ⟨h1, ?_⟩
      cases hn : s.producer_consumer_analyses_ (p, c) with
      | some v => rw [GetPair_hit AnalyzeProducerConsumerFusion hn]; exact ⟨h2, h3⟩
      | none =>
        rw [GetPair_miss AnalyzeProducerConsumerFusion hn]
        simp only [NodeMap.pushBack]
        rw [NodeMap.insert_other _ _ (Ne.symm hpc.1), NodeMap.insert_other _ _ (Ne.symm hpc.2)]
        exact ⟨h2, h3⟩
    | invalidate m =>
      simp only [stepCache]
      rw [Invalidate_analyses, Invalidate_consumers, Invalidate_producers]
      simp [NodeMap.erase, h1, h2, h3]

end Persistence

end xla.gpu

namespace xla.gpu

/-! ## The claims -/

section Claims

variable {α δ : Type}
variable (AnalyzeFusion : NodeId → δ → Option α)
variable (AnalyzeProducerConsumerFusion : NodeId → NodeId → δ → Option α)

open HloFusionAnalysisCache

/-- C1, memoization of the single-node query. Run `ops1`, then `Get(n)`,
then `ops2` from the empty cache for device `D`, where `ops1` holds no
`Get(n)` (so the `Get(n)` after it is the first one) and `Invalidate(n)`
occurs nowhere. Then `AnalyzeFusion` is invoked for `n` exactly once in the
whole run, by that first `Get(n)`; and every later `Get(n)` (after any
`mid` with `ops2 = mid ++ Get(n) :: rest`) invokes nothing, returns the
cache as it found it, and returns the value of the first call, which is
the entry stored under `n`. -/
theorem C1_getSingle_memoized (D : δ) (n : NodeId) (ops1 ops2 : List Op)
    (hfirst : Op.getSingle n ∉ ops1)
    (hinv : Op.invalidate n ∉ ops1 ++ Op.getSingle n :: ops2) :
    (runCalls AnalyzeFusion AnalyzeProducerConsumerFusion (construct D)
        (ops1 ++ Op.getSingle n :: ops2)).countP (Call.isFusionOf n) = 1 ∧
      ((runCache AnalyzeFusion AnalyzeProducerConsumerFusion (construct D) ops1).Get
        AnalyzeFusion n).calls = [Call.AnalyzeFusion n D] ∧
      ∀ mid rest, ops2 = mid ++ Op.getSingle n :: rest →
        (runCache AnalyzeFusion AnalyzeProducerConsumerFusion (construct D)
            (ops1 ++ Op.getSingle n :: mid)).Get AnalyzeFusion n =
          ⟨runCache AnalyzeFusion AnalyzeProducerConsumerFusion (construct D)
              (ops1 ++ Op.getSingle n :: mid),
            ((runCache AnalyzeFusion AnalyzeProducerConsumerFusion (construct D) ops1).Get
              AnalyzeFusion n).value, []⟩ ∧
        (runCache AnalyzeFusion AnalyzeProducerConsumerFusion (construct D)
            (ops1 ++ Op.getSingle n :: mid)).analyses_ n =
          some ((runCache AnalyzeFusion AnalyzeProducerConsumerFusion (construct D) ops1).Get
            AnalyzeFusion n).value := by
  have hinv1 : Op.invalidate n ∉ ops2 := fun e =>
    hinv (List.mem_append_right _ (List.mem_cons_of_mem _ e))
  obtain ⟨habs, hcnt1⟩ := single_absent_run AnalyzeFusion AnalyzeProducerConsumerFusion n ops1
    (construct D) rfl hfirst
  have hdev : (runCache AnalyzeFusion AnalyzeProducerConsumerFusion (construct D)
      ops1).device_info_ = D := runCache_device _ _ _ _
  have hget := Get_miss AnalyzeFusion habs
  rw [hdev] at hget
  have hstored := Get_analyses_self AnalyzeFusion
    (runCache AnalyzeFusion AnalyzeProducerConsumerFusion (construct D) ops1) n
  refine ⟨?_, ?_, ?_⟩
  · obtain ⟨_, hcnt2⟩ := single_present_run AnalyzeFusion AnalyzeProducerConsumerFusion n _
      ops2 _ hstored hinv1
    rw [runCalls_append]
    simp only [runCalls, stepCalls, stepCache, List.countP_append, hcnt1, hcnt2]
    rw [hget]
    simp [Call.isFusionOf]
  · rw [hget]
  · intro mid rest hsplit
    have hmid : Op.invalidate n ∉ mid := fun e =>
      hinv1 (hsplit ▸ List.mem_append_left _ e)
    obtain ⟨hkept, _⟩ := single_present_run AnalyzeFusion AnalyzeProducerConsumerFusion n _
      mid _ hstored hmid
    have hrun : runCache AnalyzeFusion AnalyzeProducerConsumerFusion (construct D)
          (ops1 ++ Op.getSingle n :: mid) =
        runCache AnalyzeFusion AnalyzeProducerConsumerFusion
          ((runCache AnalyzeFusion AnalyzeProducerConsumerFusion (construct D) ops1).Get
            AnalyzeFusion n).cache mid := by
      rw [runCache_append]; rfl
    rw [hrun]
    exact ⟨Get_hit AnalyzeFusion hkept, hkept⟩

/-- C2, cache transparency. In the cache reached from the empty cache for
device `D` by any sequence of operations, `Get(n)` returns
`AnalyzeFusion(n, D)` and `Get(p, c)` returns
`AnalyzeProducerConsumerFusion(p, c, D)`, on a hit as on a miss; an entry
stored under `n` or under `(p, c)` holds that same value; and the only call
a query makes, on a miss, is the analysis of its own arguments with `D`. -/
theorem C2_cache_transparent (D : δ) (ops : List Op) (n p c : NodeId) :
    ((runCache AnalyzeFusion AnalyzeProducerConsumerFusion (construct D) ops).Get
        AnalyzeFusion n).value = AnalyzeFusion n D ∧
      ((runCache AnalyzeFusion AnalyzeProducerConsumerFusion (construct D) ops).GetPair
        AnalyzeProducerConsumerFusion p c).value = AnalyzeProducerConsumerFusion p c D ∧
      ((runCache AnalyzeFusion AnalyzeProducerConsumerFusion (construct D) ops).analyses_ n =
          none ∨
        (runCache AnalyzeFusion AnalyzeProducerConsumerFusion (construct D) ops).analyses_ n =
          some (AnalyzeFusion n D)) ∧
      ((runCache AnalyzeFusion AnalyzeProducerConsumerFusion (construct D)
          ops).producer_consumer_analyses_ (p, c) = none ∨
        (runCache AnalyzeFusion AnalyzeProducerConsumerFusion (construct D)
          ops).producer_consumer_analyses_ (p, c) =
            some (AnalyzeProducerConsumerFusion p c D)) ∧
      ((runCache AnalyzeFusion AnalyzeProducerConsumerFusion (construct D) ops).Get
        AnalyzeFusion n).calls =
          (if ((runCache AnalyzeFusion AnalyzeProducerConsumerFusion (construct D)
            ops).analyses_ n).isSome then [] else [Call.AnalyzeFusion n D]) ∧
      ((runCache AnalyzeFusion AnalyzeProducerConsumerFusion (construct D) ops).GetPair
        AnalyzeProducerConsumerFusion p c).calls =
          (if ((runCache AnalyzeFusion AnalyzeProducerConsumerFusion (construct D)
            ops).producer_consumer_analyses_ (p, c)).isSome then []
          else [Call.AnalyzeProducerConsumerFusion p c D]) := by
  have hdev : (runCache AnalyzeFusion AnalyzeProducerConsumerFusion (construct D)
      ops).device_info_ = D := runCache_device _ _ _ _
  obtain ⟨h1, h2⟩ := Transparent_run AnalyzeFusion AnalyzeProducerConsumerFusion D ops
  rw [hdev] at h1 h2
  generalize runCache AnalyzeFusion AnalyzeProducerConsumerFusion (construct D) ops = s
    at hdev h1 h2 ⊢
  have e1 : s.analyses_ n = none ∨ s.analyses_ n = some (AnalyzeFusion n D) := by
    cases hn : s.analyses_ n with
    | none => exact Or.inl rfl
    | some v => rw [h1 n v hn]; exact Or.inr rfl
  have e2 : s.producer_consumer_analyses_ (p, c) = none ∨
      s.producer_consumer_analyses_ (p, c) = some (AnalyzeProducerConsumerFusion p c D) := by
    cases hn : s.producer_consumer_analyses_ (p, c) with
    | none => exact Or.inl rfl
    | some v => rw [h2 p c v hn]; exact Or.inr rfl
  refine ⟨?_, ?_, e1, e2, ?_, ?_⟩
  · rcases e1 with hn | hn
    · rw [Get_miss AnalyzeFusion hn, hdev]
    · rw [Get_hit AnalyzeFusion hn]
  · rcases e2 with hn | hn
    · rw [GetPair_miss AnalyzeProducerConsumerFusion hn, hdev]
    · rw [GetPair_hit AnalyzeProducerConsumerFusion hn]
  · rcases e1 with hn | hn
    · rw [Get_miss AnalyzeFusion hn, hdev, hn]; rfl
    · rw [Get_hit AnalyzeFusion hn, hn]; rfl
  · rcases e2 with hn | hn
    · rw [GetPair_miss AnalyzeProducerConsumerFusion hn, hdev, hn]; rfl
    · rw [GetPair_hit AnalyzeProducerConsumerFusion hn, hn]; rfl

/-- C3, invalidation is complete. In the cache reached from the empty
cache by any sequence of operations, after `Invalidate(n)` the single store
has no entry for `n`, the pair store has no entry `(n, c)` and no entry
`(p, n)` for any `c` and `p` (so none for `(n, n)`), and `n` is a key of
neither `consumers_for_producers_` nor `producers_for_consumers_`. -/
theorem C3_invalidate_complete (D : δ) (ops : List Op) (n : NodeId) :
    ((runCache AnalyzeFusion AnalyzeProducerConsumerFusion (construct D) ops).Invalidate
        n).analyses_ n = none ∧
      (∀ c, ((runCache AnalyzeFusion AnalyzeProducerConsumerFusion (construct D)
        ops).Invalidate n).producer_consumer_analyses_ (n, c) = none) ∧
      (∀ p, ((runCache AnalyzeFusion AnalyzeProducerConsumerFusion (construct D)
        ops).Invalidate n).producer_consumer_analyses_ (p, n) = none) ∧
      ((runCache AnalyzeFusion AnalyzeProducerConsumerFusion (construct D) ops).Invalidate
        n).consumers_for_producers_ n = none ∧
      ((runCache AnalyzeFusion AnalyzeProducerConsumerFusion (construct D) ops).Invalidate
        n).producers_for_consumers_ n = none := by
  have hcov := Covered_run AnalyzeFusion AnalyzeProducerConsumerFusion D ops
  refine ⟨?_, ?_, ?_, ?_, ?_⟩
  · rw [Invalidate_analyses]; exact NodeMap.erase_same _ _
  · intro c; exact Invalidate_pairs_gone _ hcov (Or.inl rfl)
  · intro p; exact Invalidate_pairs_gone _ hcov (Or.inr rfl)
  · rw [Invalidate_consumers]; exact NodeMap.erase_same _ _
  · rw [Invalidate_producers]; exact NodeMap.erase_same _ _

/-- C4, producer-side cascade and recompute. From the cache reached by any
sequence of operations, after `Get(p, c)` and then `Invalidate(p)` the pair
`(p, c)` is not a key of the pair store and `p` is not a key of the single
store. The next `Get(p, c)` (after any `mid1` without `Get(p, c)`) misses:
it invokes `AnalyzeProducerConsumerFusion(p, c, D)` and stores its result
under `(p, c)`. The next `Get(p)` (after any `mid2` without `Get(p)`)
invokes `AnalyzeFusion(p, D)`, whether `p` had an entry before or not. -/
theorem C4_producer_cascade_recompute (D : δ) (ops : List Op) (p c : NodeId)
    (mid1 mid2 : List Op) (h1 : Op.getPair p c ∉ mid1) (h2 : Op.getSingle p ∉ mid2) :
    let s1 := (((runCache AnalyzeFusion AnalyzeProducerConsumerFusion (construct D)
      ops).GetPair AnalyzeProducerConsumerFusion p c).cache).Invalidate p
    s1.producer_consumer_analyses_ (p, c) = none ∧
      s1.analyses_ p = none ∧
      ((runCache AnalyzeFusion AnalyzeProducerConsumerFusion s1 mid1).GetPair
        AnalyzeProducerConsumerFusion p c).calls =
          [Call.AnalyzeProducerConsumerFusion p c D] ∧
      ((runCache AnalyzeFusion AnalyzeProducerConsumerFusion s1 mid1).GetPair
        AnalyzeProducerConsumerFusion p c).cache.producer_consumer_analyses_ (p, c) =
          some (AnalyzeProducerConsumerFusion p c D) ∧
      ((runCache AnalyzeFusion AnalyzeProducerConsumerFusion s1 mid2).Get
        AnalyzeFusion p).calls = [Call.AnalyzeFusion p D] := by
  intro s1
  have hcov : Covered ((runCache AnalyzeFusion AnalyzeProducerConsumerFusion (construct D)
      ops).GetPair AnalyzeProducerConsumerFusion p c).cache :=
    Covered_GetPair AnalyzeProducerConsumerFusion _ p c
      (Covered_run AnalyzeFusion AnalyzeProducerConsumerFusion D ops)
  have hgone : s1.producer_consumer_analyses_ (p, c) = none :=
    Invalidate_pairs_gone _ hcov (Or.inl rfl)
  have hsingle : s1.analyses_ p = none := by
    show (HloFusionAnalysisCache.Invalidate _ p).analyses_ p = none
    rw [Invalidate_analyses]; exact NodeMap.erase_same _ _
  have hdev : s1.device_info_ = D := by
    show (HloFusionAnalysisCache.Invalidate _ p).device_info_ = D
    rw [Invalidate_device, GetPair_device]; exact runCache_device _ _ _ _
  have hdev1 : (runCache AnalyzeFusion AnalyzeProducerConsumerFusion s1 mid1).device_info_ =
      D := by rw [runCache_device]; exact hdev
  have hdev2 : (runCache AnalyzeFusion AnalyzeProducerConsumerFusion s1 mid2).device_info_ =
      D := by rw [runCache_device]; exact hdev
  have hp := pair_absent_run AnalyzeFusion AnalyzeProducerConsumerFusion p c mid1 s1 hgone h1
  have hs := (single_absent_run AnalyzeFusion AnalyzeProducerConsumerFusion p mid2 s1
    hsingle h2).1
  refine ⟨hgone, hsingle, ?_, ?_, ?_⟩
  · rw [GetPair_miss AnalyzeProducerConsumerFusion hp, hdev1]
  · rw [GetPair_miss AnalyzeProducerConsumerFusion hp, hdev1]
    exact NodeMap.insert_same _ _ _
  · rw [Get_miss AnalyzeFusion hs, hdev2]

/-- C5, consumer-side cascade. From the cache reached by any sequence of
operations, after `Get(p, c)` and then `Invalidate(c)` the pair `(p, c)` is
not a key of the pair store; in particular this holds when the history ends
with `Get(p, c)`, `Invalidate(p)`, `Get(p, c)` before the `Invalidate(c)`. -/
theorem C5_consumer_cascade (D : δ) (ops : List Op) (p c : NodeId) :
    ((((runCache AnalyzeFusion AnalyzeProducerConsumerFusion (construct D) ops).GetPair
        AnalyzeProducerConsumerFusion p c).cache).Invalidate
          c).producer_consumer_analyses_ (p, c) = none ∧
      (runCache AnalyzeFusion AnalyzeProducerConsumerFusion (construct D)
        (ops ++ [Op.getPair p c, Op.invalidate p, Op.getPair p c,
          Op.invalidate c])).producer_consumer_analyses_ (p, c) = none := by
  have key : ∀ l : List Op,
      ((((runCache AnalyzeFusion AnalyzeProducerConsumerFusion (construct D) l).GetPair
        AnalyzeProducerConsumerFusion p c).cache).Invalidate
          c).producer_consumer_analyses_ (p, c) = none := fun l =>
    Invalidate_pairs_gone _
      (Covered_GetPair AnalyzeProducerConsumerFusion _ p c
        (Covered_run AnalyzeFusion AnalyzeProducerConsumerFusion D l)) (Or.inr rfl)
  refine ⟨key ops, ?_⟩
  have hsplit : ops ++ [Op.getPair p c, Op.invalidate p, Op.getPair p c, Op.invalidate c] =
      (ops ++ [Op.getPair p c, Op.invalidate p]) ++ [Op.getPair p c, Op.invalidate c] := by
    simp
  rw [hsplit, runCache_append]
  exact key (ops ++ [Op.getPair p c, Op.invalidate p])

/-- C6, `Invalidate` is idempotent. For every cache state, reachable or
not, `Invalidate(n)` twice in a row gives the same device descriptor and
the same four maps as `Invalidate(n)` once. `Invalidate` is a total
function: it has no failing case. -/
theorem C6_invalidate_idempotent (s : HloFusionAnalysisCache α δ) (n : NodeId) :
    (s.Invalidate n).Invalidate n = s.Invalidate n := by
  rw [Invalidate_eq (s.Invalidate n) n]
  have hc : (s.Invalidate n).consumers_for_producers_ n = none := by
    rw [Invalidate_consumers]; exact NodeMap.erase_same _ _
  have hp : (s.Invalidate n).producers_for_consumers_ n = none := by
    rw [Invalidate_producers]; exact NodeMap.erase_same _ _
  have ha : (s.Invalidate n).analyses_ n = none := by
    rw [Invalidate_analyses]; exact NodeMap.erase_same _ _
  rw [hc, hp, NodeMap.erase_absent _ _ hc, NodeMap.erase_absent _ _ hp,
    NodeMap.erase_absent _ _ ha]
  rfl

/-- C7, `Invalidate` is a no-op on an unknown node. After any sequence of
operations from the empty cache in which `n` is never the argument of
`Get(n)` and never the producer or the consumer of a `Get(p, c)`,
`Invalidate(n)` returns the cache unchanged: the device descriptor and all
four maps are the same. -/
theorem C7_invalidate_unknown_noop (D : δ) (ops : List Op) (n : NodeId)
    (hops : ∀ op ∈ ops, Op.queries n op = false) :
    (runCache AnalyzeFusion AnalyzeProducerConsumerFusion (construct D) ops).Invalidate n =
      runCache AnalyzeFusion AnalyzeProducerConsumerFusion (construct D) ops := by
  obtain ⟨ha, hc, hp⟩ := unknown_run AnalyzeFusion AnalyzeProducerConsumerFusion n ops
    (construct D) ⟨rfl, rfl, rfl⟩ hops
  rw [Invalidate_eq, hc, hp, NodeMap.erase_absent _ _ hc, NodeMap.erase_absent _ _ hp,
    NodeMap.erase_absent _ _ ha]
  rfl

/-- C8, pair keys are order-sensitive on query. For distinct `a` and `b`
and every cache state, `Get(a, b)` leaves the pair store at `(b, a)` as it
was. When neither pair is a key, after `Get(a, b)` the pair `(b, a)` is
still not a key, and a following `Get(b, a)` invokes
`AnalyzeProducerConsumerFusion(b, a, D)` and returns its result. -/
theorem C8_pair_order_sensitive (s : HloFusionAnalysisCache α δ) (a b : NodeId)
    (hab : a ≠ b) :
    (s.GetPair AnalyzeProducerConsumerFusion a b).cache.producer_consumer_analyses_ (b, a) =
        s.producer_consumer_analyses_ (b, a) ∧
      (s.producer_consumer_analyses_ (a, b) = none →
        s.producer_consumer_analyses_ (b, a) = none →
        (s.GetPair AnalyzeProducerConsumerFusion a b).cache.producer_consumer_analyses_
            (b, a) = none ∧
          ((s.GetPair AnalyzeProducerConsumerFusion a b).cache.GetPair
            AnalyzeProducerConsumerFusion b a).calls =
              [Call.AnalyzeProducerConsumerFusion b a s.device_info_] ∧
          ((s.GetPair AnalyzeProducerConsumerFusion a b).cache.GetPair
            AnalyzeProducerConsumerFusion b a).value =
              AnalyzeProducerConsumerFusion b a s.device_info_) := by
  have hk : (b, a) ≠ (a, b) := fun e => hab (Prod.mk.inj e).2
  have hsame := GetPair_pairs_other AnalyzeProducerConsumerFusion s hk
  refine ⟨hsame, ?_⟩
  intro _ hba
  have hnone : (s.GetPair AnalyzeProducerConsumerFusion a b).cache.producer_consumer_analyses_
      (b, a) = none := by rw [hsame]; exact hba
  refine ⟨hnone, ?_, ?_⟩
  · rw [GetPair_miss AnalyzeProducerConsumerFusion hnone, GetPair_device]
  · rw [GetPair_miss AnalyzeProducerConsumerFusion hnone, GetPair_device]

/-- C9 as stated fails: with the sample analyses, after `Get(1, 2)` and
`Get(2, 1)` both pairs are keys of the pair store; `Invalidate(1)` removes
the entry `(1, 2)`, and the entry `(2, 1)` is gone as well, not still
present. -/
theorem C9_counterexample :
    (sampleRun [Op.getPair 1 2, Op.getPair 2 1]).producer_consumer_analyses_ (1, 2) =
        some (some 19) ∧
      (sampleRun [Op.getPair 1 2, Op.getPair 2 1]).producer_consumer_analyses_ (2, 1) =
        some (some 28) ∧
      ((sampleRun [Op.getPair 1 2, Op.getPair 2 1]).Invalidate
        1).producer_consumer_analyses_ (1, 2) = none ∧
      ((sampleRun [Op.getPair 1 2, Op.getPair 2 1]).Invalidate
        1).producer_consumer_analyses_ (2, 1) = none := by
  decide

/-- C9 amended, invalidation is keyed by a node and takes both pairs. In a
cache reached from the empty cache in which `(a, b)` and `(b, a)` are both
keys of the pair store, an `Invalidate(n)` that removes the entry `(a, b)`
has `n = a` or `n = b` and removes the entry `(b, a)` as well; an
`Invalidate(n)` with `n` neither `a` nor `b` leaves both entries present,
as they were. -/
theorem C9_invalidate_takes_both_pairs (D : δ) (ops : List Op) (a b n : NodeId)
    (hab : (runCache AnalyzeFusion AnalyzeProducerConsumerFusion (construct D)
      ops).producer_consumer_analyses_ (a, b) ≠ none)
    (hba : (runCache AnalyzeFusion AnalyzeProducerConsumerFusion (construct D)
      ops).producer_consumer_analyses_ (b, a) ≠ none) :
    (((runCache AnalyzeFusion AnalyzeProducerConsumerFusion (construct D) ops).Invalidate
        n).producer_consumer_analyses_ (a, b) = none →
      (n = a ∨ n = b) ∧
        ((runCache AnalyzeFusion AnalyzeProducerConsumerFusion (construct D) ops).Invalidate
          n).producer_consumer_analyses_ (b, a) = none) ∧
      (n ≠ a → n ≠ b →
        ((runCache AnalyzeFusion AnalyzeProducerConsumerFusion (construct D) ops).Invalidate
            n).producer_consumer_analyses_ (a, b) =
          (runCache AnalyzeFusion AnalyzeProducerConsumerFusion (construct D)
            ops).producer_consumer_analyses_ (a, b) ∧
        ((runCache AnalyzeFusion AnalyzeProducerConsumerFusion (construct D) ops).Invalidate
            n).producer_consumer_analyses_ (b, a) =
          (runCache AnalyzeFusion AnalyzeProducerConsumerFusion (construct D)
            ops).producer_consumer_analyses_ (b, a) ∧
        ((runCache AnalyzeFusion AnalyzeProducerConsumerFusion (construct D) ops).Invalidate
            n).producer_consumer_analyses_ (a, b) ≠ none ∧
        ((runCache AnalyzeFusion AnalyzeProducerConsumerFusion (construct D) ops).Invalidate
            n).producer_consumer_analyses_ (b, a) ≠ none) := by
  have hcov := Covered_run AnalyzeFusion AnalyzeProducerConsumerFusion D ops
  have hkeep : n ≠ a → n ≠ b →
      ((runCache AnalyzeFusion AnalyzeProducerConsumerFusion (construct D) ops).Invalidate
          n).producer_consumer_analyses_ (a, b) =
        (runCache AnalyzeFusion AnalyzeProducerConsumerFusion (construct D)
          ops).producer_consumer_analyses_ (a, b) ∧
      ((runCache AnalyzeFusion AnalyzeProducerConsumerFusion (construct D) ops).Invalidate
          n).producer_consumer_analyses_ (b, a) =
        (runCache AnalyzeFusion AnalyzeProducerConsumerFusion (construct D)
          ops).producer_consumer_analyses_ (b, a) := fun ha hb =>
    ⟨Invalidate_pairs_other _ (Ne.symm ha) (Ne.symm hb),
      Invalidate_pairs_other _ (Ne.symm hb) (Ne.symm ha)⟩
  refine ⟨?_, fun ha hb => ⟨(hkeep ha hb).1, (hkeep ha hb).2,
    by rw [(hkeep ha hb).1]; exact hab, by rw [(hkeep ha hb).2]; exact hba⟩⟩
  intro hgone
  have hn : n = a ∨ n = b := by
    by_contra hcon
    have ha : n ≠ a := fun e => hcon (Or.inl e)
    have hb : n ≠ b := fun e => hcon (Or.inr e)
    rw [(hkeep ha hb).1] at hgone
    exact hab hgone
  refine ⟨hn, ?_⟩
  rcases hn with e | e
  · exact Invalidate_pairs_gone _ hcov (Or.inr e.symm)
  · exact Invalidate_pairs_gone _ hcov (Or.inl e.symm)

/-- C10, an empty analysis is cached; two statements, one for each store.
First: in any cache state where `n` is not a key of the single store and
`AnalyzeFusion(n, D)` is empty, `Get(n)` returns the empty result and stores
it under `n`; after any `mid1` without `Invalidate(n)`, `Get(n)` again is a
hit: it returns the empty result, invokes nothing and leaves the cache as
it was. Second, on its own: in any cache state where `(p, c)` is not a key
of the pair store and `AnalyzeProducerConsumerFusion(p, c, D)` is empty,
the same holds of `Get(p, c)`, after any `mid2` without `Invalidate(p)` and
`Invalidate(c)`. -/
theorem C10_empty_result_cached :
    (∀ (s : HloFusionAnalysisCache α δ) (n : NodeId) (mid1 : List Op),
      AnalyzeFusion n s.device_info_ = none →
      s.analyses_ n = none →
      Op.invalidate n ∉ mid1 →
      (s.Get AnalyzeFusion n).value = none ∧
        (s.Get AnalyzeFusion n).cache.analyses_ n = some none ∧
        (runCache AnalyzeFusion AnalyzeProducerConsumerFusion
            (s.Get AnalyzeFusion n).cache mid1).Get AnalyzeFusion n =
          ⟨runCache AnalyzeFusion AnalyzeProducerConsumerFusion
            (s.Get AnalyzeFusion n).cache mid1, none, []⟩) ∧
      ∀ (s : HloFusionAnalysisCache α δ) (p c : NodeId) (mid2 : List Op),
        AnalyzeProducerConsumerFusion p c s.device_info_ = none →
        s.producer_consumer_analyses_ (p, c) = none →
        Op.invalidate p ∉ mid2 →
        Op.invalidate c ∉ mid2 →
        (s.GetPair AnalyzeProducerConsumerFusion p c).value = none ∧
          (s.GetPair AnalyzeProducerConsumerFusion p c).cache.producer_consumer_analyses_
            (p, c) = some none ∧
          (runCache AnalyzeFusion AnalyzeProducerConsumerFusion
              (s.GetPair AnalyzeProducerConsumerFusion p c).cache mid2).GetPair
                AnalyzeProducerConsumerFusion p c =
            ⟨runCache AnalyzeFusion AnalyzeProducerConsumerFusion
              (s.GetPair AnalyzeProducerConsumerFusion p c).cache mid2, none, []⟩ := by
  constructor
  · intro s n mid1 hn hsn hmid1
    have hv1 : (s.Get AnalyzeFusion n).value = none := by
      rw [Get_miss AnalyzeFusion hsn]; exact hn
    have hst1 : (s.Get AnalyzeFusion n).cache.analyses_ n = some none := by
      rw [Get_analyses_self, hv1]
    exact ⟨hv1, hst1, Get_hit AnalyzeFusion
      (single_present_run AnalyzeFusion AnalyzeProducerConsumerFusion n none mid1 _ hst1
        hmid1).1⟩
  · intro s p c mid2 hpc hspc hmid2p hmid2c
    have hv2 : (s.GetPair AnalyzeProducerConsumerFusion p c).value = none := by
      rw [GetPair_miss AnalyzeProducerConsumerFusion hspc]; exact hpc
    have hst2 : (s.GetPair AnalyzeProducerConsumerFusion p c).cache.producer_consumer_analyses_
        (p, c) = some none := by
      rw [GetPair_pairs_self, hv2]
    exact ⟨hv2, hst2, GetPair_hit AnalyzeProducerConsumerFusion
      (pair_present_run AnalyzeFusion AnalyzeProducerConsumerFusion p c none mid2 _ hst2
        hmid2p hmid2c)⟩

end Claims

/-! ## The claims at concrete inputs -/

section Witnesses

open HloFusionAnalysisCache

/-- C1 at `n = 1`, with `Get(1, 2)`, `Get(2)` before the first `Get(1)` and
`Get(1)`, `Invalidate(2)`, `Get(1)` after it. -/
theorem C1_getSingle_memoized_witness :
    Op.getSingle 1 ∉ [Op.getPair 1 2, Op.getSingle 2] ∧
      Op.invalidate 1 ∉ [Op.getPair 1 2, Op.getSingle 2] ++
        Op.getSingle 1 :: [Op.getSingle 1, Op.invalidate 2, Op.getSingle 1] ∧
      (runCalls sampleAnalyzeFusion sampleAnalyzeProducerConsumerFusion (construct 7)
        ([Op.getPair 1 2, Op.getSingle 2] ++
          Op.getSingle 1 :: [Op.getSingle 1, Op.invalidate 2, Op.getSingle 1])).countP
            (Call.isFusionOf 1) = 1 ∧
      ((sampleRun [Op.getPair 1 2, Op.getSingle 2]).Get sampleAnalyzeFusion 1).calls =
        [Call.AnalyzeFusion 1 7] ∧
      ∀ mid rest, [Op.getSingle 1, Op.invalidate 2, Op.getSingle 1] =
          mid ++ Op.getSingle 1 :: rest →
        (sampleRun ([Op.getPair 1 2, Op.getSingle 2] ++ Op.getSingle 1 :: mid)).Get
            sampleAnalyzeFusion 1 =
          ⟨sampleRun ([Op.getPair 1 2, Op.getSingle 2] ++ Op.getSingle 1 :: mid),
            ((sampleRun [Op.getPair 1 2, Op.getSingle 2]).Get sampleAnalyzeFusion 1).value,
            []⟩ ∧
        (sampleRun ([Op.getPair 1 2, Op.getSingle 2] ++ Op.getSingle 1 :: mid)).analyses_ 1 =
          some ((sampleRun [Op.getPair 1 2, Op.getSingle 2]).Get sampleAnalyzeFusion 1).value :=
  ⟨by decide, by decide,
    C1_getSingle_memoized sampleAnalyzeFusion sampleAnalyzeProducerConsumerFusion 7 1
      [Op.getPair 1 2, Op.getSingle 2] [Op.getSingle 1, Op.invalidate 2, Op.getSingle 1]
      (by decide) (by decide)⟩

/-- C4 at `p = 1`, `c = 2` after `Get(1)`, with `Get(2, 1)`, `Get(1)` before
the next `Get(1, 2)` and `Get(1, 2)`, `Get(2)` before the next `Get(1)`. -/
theorem C4_producer_cascade_recompute_witness :
    Op.getPair 1 2 ∉ [Op.getPair 2 1, Op.getSingle 1] ∧
      Op.getSingle 1 ∉ [Op.getPair 1 2, Op.getSingle 2] ∧
      (((sampleRun [Op.getSingle 1]).GetPair sampleAnalyzeProducerConsumerFusion 1
        2).cache.Invalidate 1).producer_consumer_analyses_ (1, 2) = none ∧
      (((sampleRun [Op.getSingle 1]).GetPair sampleAnalyzeProducerConsumerFusion 1
        2).cache.Invalidate 1).analyses_ 1 = none ∧
      ((runCache sampleAnalyzeFusion sampleAnalyzeProducerConsumerFusion
        (((sampleRun [Op.getSingle 1]).GetPair sampleAnalyzeProducerConsumerFusion 1
          2).cache.Invalidate 1) [Op.getPair 2 1, Op.getSingle 1]).GetPair
            sampleAnalyzeProducerConsumerFusion 1 2).calls =
        [Call.AnalyzeProducerConsumerFusion 1 2 7] ∧
      ((runCache sampleAnalyzeFusion sampleAnalyzeProducerConsumerFusion
        (((sampleRun [Op.getSingle 1]).GetPair sampleAnalyzeProducerConsumerFusion 1
          2).cache.Invalidate 1) [Op.getPair 2 1, Op.getSingle 1]).GetPair
            sampleAnalyzeProducerConsumerFusion 1 2).cache.producer_consumer_analyses_
              (1, 2) = some (sampleAnalyzeProducerConsumerFusion 1 2 7) ∧
      ((runCache sampleAnalyzeFusion sampleAnalyzeProducerConsumerFusion
        (((sampleRun [Op.getSingle 1]).GetPair sampleAnalyzeProducerConsumerFusion 1
          2).cache.Invalidate 1) [Op.getPair 1 2, Op.getSingle 2]).Get
            sampleAnalyzeFusion 1).calls = [Call.AnalyzeFusion 1 7] :=
  ⟨by decide, by decide,
    C4_producer_cascade_recompute sampleAnalyzeFusion sampleAnalyzeProducerConsumerFusion 7
      [Op.getSingle 1] 1 2 [Op.getPair 2 1, Op.getSingle 1] [Op.getPair 1 2, Op.getSingle 2]
      (by decide) (by decide)⟩

/-- C7 at `n = 3`, which `Get(1)`, `Get(1, 2)`, `Invalidate(3)`,
`Invalidate(1)`, `Get(2, 1)` never query. -/
theorem C7_invalidate_unknown_noop_witness :
    (∀ op ∈ [Op.getSingle 1, Op.getPair 1 2, Op.invalidate 3, Op.invalidate 1,
        Op.getPair 2 1], Op.queries 3 op = false) ∧
      (sampleRun [Op.getSingle 1, Op.getPair 1 2, Op.invalidate 3, Op.invalidate 1,
          Op.getPair 2 1]).Invalidate 3 =
        sampleRun [Op.getSingle 1, Op.getPair 1 2, Op.invalidate 3, Op.invalidate 1,
          Op.getPair 2 1] :=
  ⟨by decide,
    C7_invalidate_unknown_noop sampleAnalyzeFusion sampleAnalyzeProducerConsumerFusion 7
      [Op.getSingle 1, Op.getPair 1 2, Op.invalidate 3, Op.invalidate 1, Op.getPair 2 1] 3
      (by decide)⟩

/-- C8 at `a = 1`, `b = 2` on the empty cache, where neither pair is a
key. -/
theorem C8_pair_order_sensitive_witness :
    (1 : NodeId) ≠ 2 ∧
      (sampleRun []).producer_consumer_analyses_ (1, 2) = none ∧
      (sampleRun []).producer_consumer_analyses_ (2, 1) = none ∧
      ((sampleRun []).GetPair sampleAnalyzeProducerConsumerFusion 1
        2).cache.producer_consumer_analyses_ (2, 1) = none ∧
      (((sampleRun []).GetPair sampleAnalyzeProducerConsumerFusion 1 2).cache.GetPair
        sampleAnalyzeProducerConsumerFusion 2 1).calls =
          [Call.AnalyzeProducerConsumerFusion 2 1 7] ∧
      (((sampleRun []).GetPair sampleAnalyzeProducerConsumerFusion 1 2).cache.GetPair
        sampleAnalyzeProducerConsumerFusion 2 1).value =
          sampleAnalyzeProducerConsumerFusion 2 1 7 :=
  ⟨by decide, rfl, rfl,
    (C8_pair_order_sensitive sampleAnalyzeProducerConsumerFusion (sampleRun []) 1 2
      (by decide)).2 rfl rfl⟩

/-- C9 amended at `a = 1`, `b = 2` after `Get(1, 2)`, `Get(2, 1)`:
`Invalidate(1)` removes both entries. -/
theorem C9_invalidate_takes_both_pairs_witness :
    (sampleRun [Op.getPair 1 2, Op.getPair 2 1]).producer_consumer_analyses_ (1, 2) ≠ none ∧
      (sampleRun [Op.getPair 1 2, Op.getPair 2 1]).producer_consumer_analyses_ (2, 1) ≠
        none ∧
      ((sampleRun [Op.getPair 1 2, Op.getPair 2 1]).Invalidate
        1).producer_consumer_analyses_ (1, 2) = none ∧
      ((1 : NodeId) = 1 ∨ (1 : NodeId) = 2) ∧
      ((sampleRun [Op.getPair 1 2, Op.getPair 2 1]).Invalidate
        1).producer_consumer_analyses_ (2, 1) = none :=
  ⟨by decide, by decide, by decide,
    (C9_invalidate_takes_both_pairs sampleAnalyzeFusion sampleAnalyzeProducerConsumerFusion 7
      [Op.getPair 1 2, Op.getPair 2 1] 1 2 1 (by decide) (by decide)).1 (by decide)⟩

/-- C10 at `n = 0` and, separately, at `(p, c) = (0, 1)`, whose sample
analyses are empty, on the empty cache, with queries of other keys and
`Invalidate(2)` before the second query. -/
theorem C10_empty_result_cached_witness :
    (sampleAnalyzeFusion 0 (sampleRun []).device_info_ = none ∧
      (sampleRun []).analyses_ 0 = none ∧
      Op.invalidate 0 ∉ [Op.getSingle 1, Op.getPair 0 1, Op.invalidate 2] ∧
      ((sampleRun []).Get sampleAnalyzeFusion 0).value = none ∧
      ((sampleRun []).Get sampleAnalyzeFusion 0).cache.analyses_ 0 = some none ∧
      (runCache sampleAnalyzeFusion sampleAnalyzeProducerConsumerFusion
          ((sampleRun []).Get sampleAnalyzeFusion 0).cache
          [Op.getSingle 1, Op.getPair 0 1, Op.invalidate 2]).Get sampleAnalyzeFusion 0 =
        ⟨runCache sampleAnalyzeFusion sampleAnalyzeProducerConsumerFusion
          ((sampleRun []).Get sampleAnalyzeFusion 0).cache
          [Op.getSingle 1, Op.getPair 0 1, Op.invalidate 2], none, []⟩) ∧
      (sampleAnalyzeProducerConsumerFusion 0 1 (sampleRun []).device_info_ = none ∧
        (sampleRun []).producer_consumer_analyses_ (0, 1) = none ∧
        Op.invalidate 0 ∉ [Op.getSingle 0, Op.getPair 1 0, Op.invalidate 2] ∧
        Op.invalidate 1 ∉ [Op.getSingle 0, Op.getPair 1 0, Op.invalidate 2] ∧
        ((sampleRun []).GetPair sampleAnalyzeProducerConsumerFusion 0 1).value = none ∧
        ((sampleRun []).GetPair sampleAnalyzeProducerConsumerFusion 0
          1).cache.producer_consumer_analyses_ (0, 1) = some none ∧
        (runCache sampleAnalyzeFusion sampleAnalyzeProducerConsumerFusion
            ((sampleRun []).GetPair sampleAnalyzeProducerConsumerFusion 0 1).cache
            [Op.getSingle 0, Op.getPair 1 0, Op.invalidate 2]).GetPair
              sampleAnalyzeProducerConsumerFusion 0 1 =
          ⟨runCache sampleAnalyzeFusion sampleAnalyzeProducerConsumerFusion
            ((sampleRun []).GetPair sampleAnalyzeProducerConsumerFusion 0 1).cache
            [Op.getSingle 0, Op.getPair 1 0, Op.invalidate 2], none, []⟩) :=
  ⟨⟨rfl, rfl, by decide,
      (C10_empty_result_cached sampleAnalyzeFusion sampleAnalyzeProducerConsumerFusion).1
        (sampleRun []) 0 [Op.getSingle 1, Op.getPair 0 1, Op.invalidate 2] rfl rfl
        (by decide)⟩,
    ⟨rfl, rfl, by decide, by decide,
      (C10_empty_result_cached sampleAnalyzeFusion sampleAnalyzeProducerConsumerFusion).2
        (sampleRun []) 0 1 [Op.getSingle 0, Op.getPair 1 0, Op.invalidate 2] rfl rfl
        (by decide) (by decide)⟩⟩

end Witnesses

end xla.gpu

namespace xla.gpu

/-! ## The claims on frames and on the reverse index -/

section FrameClaims

variable {α δ : Type}
variable (AnalyzeFusion : NodeId → δ → Option α)
variable (AnalyzeProducerConsumerFusion : NodeId → NodeId → δ → Option α)

open HloFusionAnalysisCache

/-- C12, frame of the single-node query. For every cache state and node
`n`, `Get(n)` leaves the pair store, `consumers_for_producers_`,
`producers_for_consumers_` and the device descriptor as they were; the
single store is either unchanged, or `n` was not a key and the single store
is the old one with the one entry for `n` added, every other key as it
was. -/
theorem C12_getSingle_frame (s : HloFusionAnalysisCache α δ) (n : NodeId) :
    (s.Get AnalyzeFusion n).cache.producer_consumer_analyses_ =
        s.producer_consumer_analyses_ ∧
      (s.Get AnalyzeFusion n).cache.consumers_for_producers_ =
        s.consumers_for_producers_ ∧
      (s.Get AnalyzeFusion n).cache.producers_for_consumers_ =
        s.producers_for_consumers_ ∧
      (s.Get AnalyzeFusion n).cache.device_info_ = s.device_info_ ∧
      ((s.Get AnalyzeFusion n).cache.analyses_ = s.analyses_ ∨
        (s.analyses_ n = none ∧
          (s.Get AnalyzeFusion n).cache.analyses_ =
            s.analyses_.insert n (AnalyzeFusion n s.device_info_))) := by
  obtain ⟨e1, e2, e3⟩ := Get_pairs AnalyzeFusion s n
  refine ⟨e1, e2, e3, Get_device AnalyzeFusion s n, ?_⟩
  cases hn : s.analyses_ n with
  | none => rw [Get_miss AnalyzeFusion hn]; exact Or.inr ⟨rfl, rfl⟩
  | some v => rw [Get_hit AnalyzeFusion hn]; exact Or.inl rfl

/-- C14, postcondition of a pair miss. In every cache state where `(p, c)`
is not a key of the pair store, `Get(p, c)` gives the state whose pair store
is the old one plus the entry `(p, c)` holding
`AnalyzeProducerConsumerFusion(p, c, D)`, whose `consumers_for_producers_[p]`
is the old list (empty if `p` was no key) with `c` appended, whose
`producers_for_consumers_[c]` is the old list (empty if `c` was no key)
with `p` appended, and whose single store, device descriptor and other
reverse-index keys are unchanged; it returns that analysis and makes that
one call. -/
theorem C14_pair_miss_postcondition (s : HloFusionAnalysisCache α δ) (p c : NodeId)
    (h : s.producer_consumer_analyses_ (p, c) = none) :
    (s.GetPair AnalyzeProducerConsumerFusion p c).cache.producer_consumer_analyses_ =
        s.producer_consumer_analyses_.insert (p, c)
          (AnalyzeProducerConsumerFusion p c s.device_info_) ∧
      (s.GetPair AnalyzeProducerConsumerFusion p c).cache.consumers_for_producers_ p =
        some ((s.consumers_for_producers_ p).getD [] ++ [c]) ∧
      (s.GetPair AnalyzeProducerConsumerFusion p c).cache.producers_for_consumers_ c =
        some ((s.producers_for_consumers_ c).getD [] ++ [p]) ∧
      (∀ m, m ≠ p →
        (s.GetPair AnalyzeProducerConsumerFusion p c).cache.consumers_for_producers_ m =
          s.consumers_for_producers_ m) ∧
      (∀ m, m ≠ c →
        (s.GetPair AnalyzeProducerConsumerFusion p c).cache.producers_for_consumers_ m =
          s.producers_for_consumers_ m) ∧
      (s.GetPair AnalyzeProducerConsumerFusion p c).cache.analyses_ = s.analyses_ ∧
      (s.GetPair AnalyzeProducerConsumerFusion p c).cache.device_info_ = s.device_info_ ∧
      (s.GetPair AnalyzeProducerConsumerFusion p c).value =
        AnalyzeProducerConsumerFusion p c s.device_info_ ∧
      (s.GetPair AnalyzeProducerConsumerFusion p c).calls =
        [Call.AnalyzeProducerConsumerFusion p c s.device_info_] := by
  rw [GetPair_miss AnalyzeProducerConsumerFusion h]
  refine ⟨rfl, NodeMap.insert_same _ _ _, NodeMap.insert_same _ _ _, ?_, ?_, rfl, rfl, rfl,
    rfl⟩
  · intro m hm; exact NodeMap.insert_other _ _ hm
  · intro m hm; exact NodeMap.insert_other _ _ hm

/-- C15, a pair query that finds its key does not touch the reverse index.
In every cache state where `(p, c)` is a key of the pair store holding `v`,
`Get(p, c)` returns `v`, makes no call and returns the cache as it was; and
the re-check under the exclusive lock, reached with any computed
`analysis`, also returns `v` and the cache as it was, so nothing is
appended to either reverse-index list. -/
theorem C15_pair_hit_frame (s : HloFusionAnalysisCache α δ) (p c : NodeId) (v : Option α)
    (h : s.producer_consumer_analyses_ (p, c) = some v) :
    s.GetPair AnalyzeProducerConsumerFusion p c = ⟨s, v, []⟩ ∧
      ∀ analysis : Option α, s.GetPairLocked p c analysis = (s, v) := by
  refine ⟨GetPair_hit AnalyzeProducerConsumerFusion h, ?_⟩
  intro analysis
  simp [GetPairLocked, h]

/-- C16, asymmetric cleanup. For distinct `p` and `c` and any cache reached
from the empty cache, after `Get(p, c)` and then `Invalidate(p)` the list
`producers_for_consumers_[c]` is as before the invalidation and still lists
`p`, although `(p, c)` is no longer a key of the pair store; and after
`Get(p, c)` and then `Invalidate(c)` the list `consumers_for_producers_[p]`
is as before and still lists `c`, although `(p, c)` is no longer a key. -/
theorem C16_asymmetric_cleanup (D : δ) (ops : List Op) (p c : NodeId) (hpc : p ≠ c) :
    let s1 := ((runCache AnalyzeFusion AnalyzeProducerConsumerFusion (construct D)
      ops).GetPair AnalyzeProducerConsumerFusion p c).cache
    (s1.Invalidate p).producers_for_consumers_ c = s1.producers_for_consumers_ c ∧
      (∃ l, (s1.Invalidate p).producers_for_consumers_ c = some l ∧ p ∈ l) ∧
      (s1.Invalidate p).producer_consumer_analyses_ (p, c) = none ∧
      (s1.Invalidate c).consumers_for_producers_ p = s1.consumers_for_producers_ p ∧
      (∃ l, (s1.Invalidate c).consumers_for_producers_ p = some l ∧ c ∈ l) ∧
      (s1.Invalidate c).producer_consumer_analyses_ (p, c) = none := by
  intro s1
  have hcov : Covered s1 :=
    Covered_GetPair AnalyzeProducerConsumerFusion _ p c
      (Covered_run AnalyzeFusion AnalyzeProducerConsumerFusion D ops)
  have hkey : s1.producer_consumer_analyses_ (p, c) ≠ none := by
    have := GetPair_pairs_self AnalyzeProducerConsumerFusion
      (runCache AnalyzeFusion AnalyzeProducerConsumerFusion (construct D) ops) p c
    intro e
    rw [this] at e
    cases e
  obtain ⟨hc, hp⟩ := hcov p c hkey
  have e1 : (s1.Invalidate p).producers_for_consumers_ c = s1.producers_for_consumers_ c := by
    rw [Invalidate_producers]; exact NodeMap.erase_other _ (Ne.symm hpc)
  have e2 : (s1.Invalidate c).consumers_for_producers_ p = s1.consumers_for_producers_ p := by
    rw [Invalidate_consumers]; exact NodeMap.erase_other _ hpc
  refine ⟨e1, ?_, Invalidate_pairs_gone s1 hcov (Or.inl rfl), e2, ?_,
    Invalidate_pairs_gone s1 hcov (Or.inr rfl)⟩
  · rw [e1]; exact hp
  · rw [e2]; exact hc

/-- C17, invalidation removes nothing unrelated. For every cache state,
reachable or not, and every node `n`: `Invalidate(n)` leaves the single
entry of every `m ≠ n`, the pair entry of every `(p, c)` with `p ≠ n` and
`c ≠ n`, and both reverse-index lists of every `m ≠ n` as they were; and it
creates nothing: every key of either store afterwards was a key before,
with the same value. -/
theorem C17_invalidate_frame (s : HloFusionAnalysisCache α δ) (n m p c : NodeId)
    (hm : m ≠ n) (hp : p ≠ n) (hc : c ≠ n) :
    (s.Invalidate n).analyses_ m = s.analyses_ m ∧
      (s.Invalidate n).producer_consumer_analyses_ (p, c) =
        s.producer_consumer_analyses_ (p, c) ∧
      (s.Invalidate n).consumers_for_producers_ m = s.consumers_for_producers_ m ∧
      (s.Invalidate n).producers_for_consumers_ m = s.producers_for_consumers_ m ∧
      (∀ k, (s.Invalidate n).analyses_ k = none ∨
        (s.Invalidate n).analyses_ k = s.analyses_ k) ∧
      (∀ k, (s.Invalidate n).producer_consumer_analyses_ k = none ∨
        (s.Invalidate n).producer_consumer_analyses_ k = s.producer_consumer_analyses_ k) ∧
      (s.Invalidate n).device_info_ = s.device_info_ := by
  refine ⟨?_, Invalidate_pairs_other s hp hc, ?_, ?_, ?_, Invalidate_pairs_sub s n,
    Invalidate_device s n⟩
  · rw [Invalidate_analyses]; exact NodeMap.erase_other _ hm
  · rw [Invalidate_consumers]; exact NodeMap.erase_other _ hm
  · rw [Invalidate_producers]; exact NodeMap.erase_other _ hm
  · intro k
    rw [Invalidate_analyses]
    by_cases hk : k = n
    · subst hk; exact Or.inl (NodeMap.erase_same _ _)
    · exact Or.inr (NodeMap.erase_other _ hk)

/-- C18, reverse-index coverage. In every cache reached from the empty
cache, every key `(p, c)` of the pair store has `p` as a key of
`consumers_for_producers_` with `c` in its list and `c` as a key of
`producers_for_consumers_` with `p` in its list; and from any cache state
with this property, `Get(n)`, `Get(p, c)` and `Invalidate(n)` each give a
state with it. -/
theorem C18_reverse_index_coverage (D : δ) (ops : List Op) :
    (∀ p c, (runCache AnalyzeFusion AnalyzeProducerConsumerFusion (construct D)
        ops).producer_consumer_analyses_ (p, c) ≠ none →
      (∃ l, (runCache AnalyzeFusion AnalyzeProducerConsumerFusion (construct D)
          ops).consumers_for_producers_ p = some l ∧ c ∈ l) ∧
        ∃ l, (runCache AnalyzeFusion AnalyzeProducerConsumerFusion (construct D)
          ops).producers_for_consumers_ c = some l ∧ p ∈ l) ∧
      (∀ (s : HloFusionAnalysisCache α δ) n, Covered s →
        Covered (s.Get AnalyzeFusion n).cache) ∧
      (∀ (s : HloFusionAnalysisCache α δ) p c, Covered s →
        Covered (s.GetPair AnalyzeProducerConsumerFusion p c).cache) ∧
      ∀ (s : HloFusionAnalysisCache α δ) n, Covered s → Covered (s.Invalidate n) :=
  ⟨Covered_run AnalyzeFusion AnalyzeProducerConsumerFusion D ops,
    fun s n hs => Covered_Get AnalyzeFusion s n hs,
    fun s p c hs => Covered_GetPair AnalyzeProducerConsumerFusion s p c hs,
    fun s n hs => Covered_Invalidate s n hs⟩

end FrameClaims

end xla.gpu

namespace xla.gpu

/-! ## Reverse-index listings and full invalidation -/

section ListingLemmas

variable {α δ : Type}
variable (AnalyzeFusion : NodeId → δ → Option α)
variable (AnalyzeProducerConsumerFusion : NodeId → NodeId → δ → Option α)

open HloFusionAnalysisCache

/-- A node listed after `m[k].push_back(x)` is the pushed one or was listed
before. -/
theorem pushBack_listed (m : NodeMap NodeId (List NodeId)) (k x : NodeId) {j y : NodeId}
    {l : List NodeId} (hl : m.pushBack k x j = some l) (hy : y ∈ l) :
    (j = k ∧ y = x) ∨ ∃ l0, m j = some l0 ∧ y ∈ l0 := by
  by_cases hj : j = k
  · subst hj
    rw [NodeMap.pushBack, NodeMap.insert_same] at hl
    cases hl
    rcases List.mem_append.mp hy with h | h
    · cases hm : m j with
      | none => rw [hm] at h; simp at h
      | some l0 => rw [hm] at h; exact Or.inr ⟨l0, rfl, h⟩
    · exact Or.inl ⟨rfl, by simpa using h⟩
  · rw [NodeMap.pushBack, NodeMap.insert_other _ _ hj] at hl
    exact Or.inr ⟨l, hl, hy⟩

/-- A pair listed in both reverse-index maps is a key of the pair store:
this holds after every operation when it held before. -/
theorem listed_step (s : HloFusionAnalysisCache α δ) (op : Op)
    (hs : ∀ p c, (∃ l, s.consumers_for_producers_ p = some l ∧ c ∈ l) →
      (∃ l, s.producers_for_consumers_ c = some l ∧ p ∈ l) →
      s.producer_consumer_analyses_ (p, c) ≠ none) :
    ∀ p c,
      (∃ l, (stepCache AnalyzeFusion AnalyzeProducerConsumerFusion s
        op).consumers_for_producers_ p = some l ∧ c ∈ l) →
      (∃ l, (stepCache AnalyzeFusion AnalyzeProducerConsumerFusion s
        op).producers_for_consumers_ c = some l ∧ p ∈ l) →
      (stepCache AnalyzeFusion AnalyzeProducerConsumerFusion s
        op).producer_consumer_analyses_ (p, c) ≠ none := by
  intro p c h1 h2
  cases op with
  | getSingle n =>
    obtain ⟨e1, e2, e3⟩ := Get_pairs AnalyzeFusion s n
    simp only [stepCache] at h1 h2 ⊢
    rw [e2] at h1
    rw [e3] at h2
    rw [e1]
    exact hs p c h1 h2
  | getPair p0 c0 =>
    simp only [stepCache] at h1 h2 ⊢
    cases hn : s.producer_consumer_analyses_ (p0, c0) with
    | some v =>
      rw [GetPair_hit AnalyzeProducerConsumerFusion hn] at h1 h2 ⊢
      exact hs p c h1 h2
    | none =>
      rw [GetPair_miss AnalyzeProducerConsumerFusion hn] at h1 h2 ⊢
      simp only at h1 h2 ⊢
      by_cases hk : (p, c) = (p0, c0)
      · rw [hk, NodeMap.insert_same]; simp
      · rw [NodeMap.insert_other _ _ hk]
        obtain ⟨l1, hl1, hc1⟩ := h1
        obtain ⟨l2, hl2, hp2⟩ := h2
        rcases pushBack_listed _ _ _ hl1 hc1 with ⟨e1, e2⟩ | old1
        · exact absurd (by rw [e1, e2]) hk
        · rcases pushBack_listed _ _ _ hl2 hp2 with ⟨e1, e2⟩ | old2
          · exact absurd (by rw [e1, e2]) hk
          · exact hs p c old1 old2
  | invalidate n =>
    simp only [stepCache] at h1 h2 ⊢
    rw [Invalidate_consumers] at h1
    rw [Invalidate_producers] at h2
    obtain ⟨l1, hl1, hc1⟩ := h1
    obtain ⟨l2, hl2, hp2⟩ := h2
    have hp : p ≠ n := fun e => by rw [e, NodeMap.erase_same] at hl1; cases hl1
    have hc : c ≠ n := fun e => by rw [e, NodeMap.erase_same] at hl2; cases hl2
    rw [NodeMap.erase_other _ hp] at hl1
    rw [NodeMap.erase_other _ hc] at hl2
    rw [Invalidate_pairs_other s hp hc]
    exact hs p c ⟨l1, hl1, hc1⟩ ⟨l2, hl2, hp2⟩

theorem listed_run (D : δ) (ops : List Op) (p c : NodeId)
    (h1 : ∃ l, (runCache AnalyzeFusion AnalyzeProducerConsumerFusion (construct D)
      ops).consumers_for_producers_ p = some l ∧ c ∈ l)
    (h2 : ∃ l, (runCache AnalyzeFusion AnalyzeProducerConsumerFusion (construct D)
      ops).producers_for_consumers_ c = some l ∧ p ∈ l) :
    (runCache AnalyzeFusion AnalyzeProducerConsumerFusion (construct D)
      ops).producer_consumer_analyses_ (p, c) ≠ none := by
  refine runCache_invariant AnalyzeFusion AnalyzeProducerConsumerFusion
    (fun s => ∀ p c, (∃ l, s.consumers_for_producers_ p = some l ∧ c ∈ l) →
      (∃ l, s.producers_for_consumers_ c = some l ∧ p ∈ l) →
      s.producer_consumer_analyses_ (p, c) ≠ none)
    (listed_step AnalyzeFusion AnalyzeProducerConsumerFusion) _ ?_ ops p c h1 h2
  intro p c h _
  obtain ⟨l, hl, _⟩ := h
  simp [construct, NodeMap.empty] at hl

/-! ### Invalidating a list of nodes -/

theorem Op.queries_eq_false {n : NodeId} {op : Op} (h : n ∉ op.queried) :
    Op.queries n op = false := by
  cases op with
  | getSingle m =>
    have hm : m ≠ n := fun e => h (by simp [Op.queried, e])
    simp [Op.queries, hm]
  | getPair p c =>
    have hp : p ≠ n := fun e => h (by simp [Op.queried, e])
    have hc : c ≠ n := fun e => h (by simp [Op.queried, e])
    simp [Op.queries, hp, hc]
  | invalidate m => rfl

theorem invalidateAll_device (nodes : List NodeId) (s : HloFusionAnalysisCache α δ) :
    (runCache AnalyzeFusion AnalyzeProducerConsumerFusion s
      (nodes.map Op.invalidate)).device_info_ = s.device_info_ :=
  runCache_device _ _ _ _

theorem invalidateAll_analyses (nodes : List NodeId) (s : HloFusionAnalysisCache α δ)
    (m : NodeId) (h : m ∈ nodes ∨ s.analyses_ m = none) :
    (runCache AnalyzeFusion AnalyzeProducerConsumerFusion s
      (nodes.map Op.invalidate)).analyses_ m = none := by
  induction nodes generalizing s with
  | nil => simpa using h
  | cons n ns ih =>
    refine ih (s.Invalidate n) ?_
    rw [Invalidate_analyses]
    rcases h with h | h
    · rcases List.mem_cons.mp h with e | e
      · exact Or.inr (e ▸ NodeMap.erase_same _ _)
      · exact Or.inl e
    · exact Or.inr (by simp [NodeMap.erase, h])

theorem invalidateAll_consumers (nodes : List NodeId) (s : HloFusionAnalysisCache α δ)
    (m : NodeId) (h : m ∈ nodes ∨ s.consumers_for_producers_ m = none) :
    (runCache AnalyzeFusion AnalyzeProducerConsumerFusion s
      (nodes.map Op.invalidate)).consumers_for_producers_ m = none := by
  induction nodes generalizing s with
  | nil => simpa using h
  | cons n ns ih =>
    refine ih (s.Invalidate n) ?_
    rw [Invalidate_consumers]
    rcases h with h | h
    · rcases List.mem_cons.mp h with e | e
      · exact Or.inr (e ▸ NodeMap.erase_same _ _)
      · exact Or.inl e
    · exact Or.inr (by simp [NodeMap.erase, h])

theorem invalidateAll_producers (nodes : List NodeId) (s : HloFusionAnalysisCache α δ)
    (m : NodeId) (h : m ∈ nodes ∨ s.producers_for_consumers_ m = none) :
    (runCache AnalyzeFusion AnalyzeProducerConsumerFusion s
      (nodes.map Op.invalidate)).producers_for_consumers_ m = none := by
  induction nodes generalizing s with
  | nil => simpa using h
  | cons n ns ih =>
    refine ih (s.Invalidate n) ?_
    rw [Invalidate_producers]
    rcases h with h | h
    · rcases List.mem_cons.mp h with e | e
      · exact Or.inr (e ▸ NodeMap.erase_same _ _)
      · exact Or.inl e
    · exact Or.inr (by simp [NodeMap.erase, h])

theorem invalidateAll_pairs (nodes : List NodeId) (s : HloFusionAnalysisCache α δ)
    (hs : Covered s) (p c : NodeId)
    (h : p ∈ nodes ∨ c ∈ nodes ∨ s.producer_consumer_analyses_ (p, c) = none) :
    (runCache AnalyzeFusion AnalyzeProducerConsumerFusion s
      (nodes.map Op.invalidate)).producer_consumer_analyses_ (p, c) = none := by
  induction nodes generalizing s with
  | nil => simpa using h
  | cons n ns ih =>
    refine ih (s.Invalidate n) (Covered_Invalidate s n hs) ?_
    rcases h with h | h | h
    · rcases List.mem_cons.mp h with e | e
      · exact Or.inr (Or.inr (Invalidate_pairs_gone s hs (Or.inl e)))
      · exact Or.inl e
    · rcases List.mem_cons.mp h with e | e
      · exact Or.inr (Or.inr (Invalidate_pairs_gone s hs (Or.inr e)))
      · exact Or.inr (Or.inl e)
    · rcases Invalidate_pairs_sub s n (p, c) with e | e
      · exact Or.inr (Or.inr e)
      · exact Or.inr (Or.inr (by rw [e]; exact h))

end ListingLemmas

end xla.gpu

namespace xla.gpu

section IndexClaims

variable {α δ : Type}
variable (AnalyzeFusion : NodeId → δ → Option α)
variable (AnalyzeProducerConsumerFusion : NodeId → NodeId → δ → Option α)

open HloFusionAnalysisCache

/-- C13 as stated fails: with the sample analyses, after `Get(1, 2)`,
`Invalidate(1)`, `Get(1, 2)` the pair `(1, 2)` is a key of the pair store
and `consumers_for_producers_[1]` is `[2]`, but
`producers_for_consumers_[2]` is `[1, 1]`: node 1 appears twice, not
exactly once. -/
theorem C13_counterexample :
    (sampleRun [Op.getPair 1 2, Op.invalidate 1,
        Op.getPair 1 2]).producer_consumer_analyses_ (1, 2) = some (some 19) ∧
      (sampleRun [Op.getPair 1 2, Op.invalidate 1,
        Op.getPair 1 2]).consumers_for_producers_ 1 = some [2] ∧
      (sampleRun [Op.getPair 1 2, Op.invalidate 1,
        Op.getPair 1 2]).producers_for_consumers_ 2 = some [1, 1] ∧
      ((sampleRun [Op.getPair 1 2, Op.invalidate 1,
        Op.getPair 1 2]).producers_for_consumers_ 2).map (List.count 1) = some 2 := by
  decide

/-- C13 amended, the reverse index lists exactly the stored pairs, with
repetition allowed. In every cache reached from the empty cache, `(p, c)` is
a key of the pair store if and only if `p` is a key of
`consumers_for_producers_` whose list contains `c` and `c` is a key of
`producers_for_consumers_` whose list contains `p`. -/
theorem C13_reverse_index_iff (D : δ) (ops : List Op) (p c : NodeId) :
    (runCache AnalyzeFusion AnalyzeProducerConsumerFusion (construct D)
        ops).producer_consumer_analyses_ (p, c) ≠ none ↔
      (∃ l, (runCache AnalyzeFusion AnalyzeProducerConsumerFusion (construct D)
          ops).consumers_for_producers_ p = some l ∧ c ∈ l) ∧
        ∃ l, (runCache AnalyzeFusion AnalyzeProducerConsumerFusion (construct D)
          ops).producers_for_consumers_ c = some l ∧ p ∈ l := by
  constructor
  · exact Covered_run AnalyzeFusion AnalyzeProducerConsumerFusion D ops p c
  · intro h
    exact listed_run AnalyzeFusion AnalyzeProducerConsumerFusion D ops p c h.1 h.2

/-- C19, no residue after full invalidation. After any sequence `ops` of
operations from the empty cache for device `D`, calling `Invalidate` for
the nodes of a list that holds every node that was an argument of a `Get`
in `ops`, in any order, gives the empty cache for `D` again: the single
store, the pair store, `consumers_for_producers_` and
`producers_for_consumers_` have no keys. -/
theorem C19_no_residue (D : δ) (ops : List Op) (nodes : List NodeId)
    (hall : ∀ op ∈ ops, ∀ n ∈ op.queried, n ∈ nodes) :
    runCache AnalyzeFusion AnalyzeProducerConsumerFusion
        (runCache AnalyzeFusion AnalyzeProducerConsumerFusion (construct D) ops)
        (nodes.map Op.invalidate) =
      construct D := by
  have hcov := Covered_run AnalyzeFusion AnalyzeProducerConsumerFusion D ops
  have hunk : ∀ m, m ∉ nodes →
      (runCache AnalyzeFusion AnalyzeProducerConsumerFusion (construct D) ops).analyses_ m =
          none ∧
        (runCache AnalyzeFusion AnalyzeProducerConsumerFusion (construct D)
          ops).consumers_for_producers_ m = none ∧
        (runCache AnalyzeFusion AnalyzeProducerConsumerFusion (construct D)
          ops).producers_for_consumers_ m = none := fun m hm =>
    unknown_run AnalyzeFusion AnalyzeProducerConsumerFusion m ops (construct D)
      ⟨rfl, rfl, rfl⟩
      (fun op hop => Op.queries_eq_false (fun hq => hm (hall op hop m hq)))
  have hd : (runCache AnalyzeFusion AnalyzeProducerConsumerFusion
      (runCache AnalyzeFusion AnalyzeProducerConsumerFusion (construct D) ops)
      (nodes.map Op.invalidate)).device_info_ = D := by
    rw [invalidateAll_device, runCache_device]
    rfl
  have ha : (runCache AnalyzeFusion AnalyzeProducerConsumerFusion
      (runCache AnalyzeFusion AnalyzeProducerConsumerFusion (construct D) ops)
      (nodes.map Op.invalidate)).analyses_ = NodeMap.empty := by
    funext m
    refine invalidateAll_analyses AnalyzeFusion AnalyzeProducerConsumerFusion nodes _ m ?_
    by_cases hm : m ∈ nodes
    · exact Or.inl hm
    · exact Or.inr (hunk m hm).1
  have hc : (runCache AnalyzeFusion AnalyzeProducerConsumerFusion
      (runCache AnalyzeFusion AnalyzeProducerConsumerFusion (construct D) ops)
      (nodes.map Op.invalidate)).consumers_for_producers_ = NodeMap.empty := by
    funext m
    refine invalidateAll_consumers AnalyzeFusion AnalyzeProducerConsumerFusion nodes _ m ?_
    by_cases hm : m ∈ nodes
    · exact Or.inl hm
    · exact Or.inr (hunk m hm).2.1
  have hp : (runCache AnalyzeFusion AnalyzeProducerConsumerFusion
      (runCache AnalyzeFusion AnalyzeProducerConsumerFusion (construct D) ops)
      (nodes.map Op.invalidate)).producers_for_consumers_ = NodeMap.empty := by
    funext m
    refine invalidateAll_producers AnalyzeFusion AnalyzeProducerConsumerFusion nodes _ m ?_
    by_cases hm : m ∈ nodes
    · exact Or.inl hm
    · exact Or.inr (hunk m hm).2.2
  have hpc : (runCache AnalyzeFusion AnalyzeProducerConsumerFusion
      (runCache AnalyzeFusion AnalyzeProducerConsumerFusion (construct D) ops)
      (nodes.map Op.invalidate)).producer_consumer_analyses_ = NodeMap.empty := by
    funext k
    obtain ⟨p, c⟩ := k
    refine invalidateAll_pairs AnalyzeFusion AnalyzeProducerConsumerFusion nodes _ hcov p c ?_
    by_cases hm : p ∈ nodes
    · exact Or.inl hm
    · refine Or.inr (Or.inr ?_)
      by_contra hne
      obtain ⟨⟨l, hl, _⟩, _⟩ := hcov p c hne
      rw [(hunk p hm).2.1] at hl
      cases hl
  generalize runCache AnalyzeFusion AnalyzeProducerConsumerFusion
    (runCache AnalyzeFusion AnalyzeProducerConsumerFusion (construct D) ops)
    (nodes.map Op.invalidate) = f at hd ha hc hp hpc
  cases f
  simp only at hd ha hc hp hpc
  subst hd ha hc hp hpc
  rfl

end IndexClaims

end xla.gpu

namespace xla.gpu

/-! ## Two racing threads -/

namespace Race

variable {α δ : Type}
variable (analyze : Bool → NodeId → δ → Option α)

open HloFusionAnalysisCache

theorem step_start_miss {n : NodeId} {r : Race α δ} {t : Bool} (hph : r.phase t = .start)
    (hn : r.cache.analyses_ n = none) :
    step analyze n r t = { r with phase := setPhase r.phase t .missed } := by
  simp [step, hph, hn]

theorem step_start_hit {n : NodeId} {r : Race α δ} {t : Bool} {v : Option α}
    (hph : r.phase t = .start) (hn : r.cache.analyses_ n = some v) :
    step analyze n r t = { r with phase := setPhase r.phase t (.returned v) } := by
  simp [step, hph, hn]

theorem step_missed {n : NodeId} {r : Race α δ} {t : Bool} (hph : r.phase t = .missed) :
    step analyze n r t =
      { r with
          phase := setPhase r.phase t (.computed (analyze t n r.cache.device_info_))
          calls := r.calls ++ [Call.AnalyzeFusion n r.cache.device_info_] } := by
  simp [step, hph]

theorem step_computed_store {n : NodeId} {r : Race α δ} {t : Bool} {a : Option α}
    (hph : r.phase t = .computed a) (hn : r.cache.analyses_ n = none) :
    step analyze n r t =
      { r with
          cache := { r.cache with analyses_ := r.cache.analyses_.insert n a }
          phase := setPhase r.phase t (.returned a)
          commits := r.commits ++ [Commit.stored t] } := by
  simp [step, hph, hn, GetLocked]

theorem step_computed_discard {n : NodeId} {r : Race α δ} {t : Bool} {a v : Option α}
    (hph : r.phase t = .computed a) (hn : r.cache.analyses_ n = some v) :
    step analyze n r t =
      { r with
          phase := setPhase r.phase t (.returned v)
          commits := r.commits ++ [Commit.discarded t] } := by
  simp [step, hph, hn, GetLocked]

theorem step_returned {n : NodeId} {r : Race α δ} {t : Bool} {v : Option α}
    (hph : r.phase t = .returned v) : step analyze n r t = r := by
  simp [step, hph]

theorem setPhase_same (phase : Bool → Phase α) (t : Bool) (ph : Phase α) :
    setPhase phase t ph t = ph := by
  simp [setPhase]

theorem setPhase_other (phase : Bool → Phase α) {t u : Bool} (ph : Phase α) (h : u ≠ t) :
    setPhase phase t ph u = phase u := by
  simp [setPhase, h]

theorem run_append (n : NodeId) (r : Race α δ) (xs ys : List Bool) :
    run analyze n r (xs ++ ys) = run analyze n (run analyze n r xs) ys := by
  induction xs generalizing r with
  | nil => rfl
  | cons t ts ih => exact ih _

theorem Pending_init (s : HloFusionAnalysisCache α δ) (n : NodeId) :
    Pending analyze s n (init s) :=
  ⟨rfl, rfl, fun _ => Or.inl rfl⟩

/-- While no thread has committed, a step keeps it so or is the first
commit, which stores the analysis of the thread that moved. -/
theorem Pending_step {s : HloFusionAnalysisCache α δ} {n : NodeId} {r : Race α δ}
    (hs : s.analyses_ n = none) (hr : Pending analyze s n r) (t : Bool) :
    Pending analyze s n (step analyze n r t) ∨ Won analyze s n t (step analyze n r t) := by
  obtain ⟨hcache, hcommits, hphase⟩ := hr
  have hn : r.cache.analyses_ n = none := by rw [hcache]; exact hs
  rcases hphase t with hph | hph | hph
  · left
    rw [step_start_miss analyze hph hn]
    refine ⟨hcache, hcommits, ?_⟩
    intro u
    by_cases hu : u = t
    · subst hu; exact Or.inr (Or.inl (setPhase_same _ _ _))
    · simp only [setPhase_other _ _ hu]; exact hphase u
  · left
    rw [step_missed analyze hph]
    refine ⟨hcache, hcommits, ?_⟩
    intro u
    by_cases hu : u = t
    · subst hu
      refine Or.inr (Or.inr ?_)
      simp only [setPhase_same, hcache]
    · simp only [setPhase_other _ _ hu]; exact hphase u
  · right
    rw [step_computed_store analyze hph hn]
    refine ⟨?_, setPhase_same _ _ _, Or.inl ⟨?_, Or.inl ?_⟩⟩
    · simp only [hcache]
    · simp only [hcommits, List.nil_append]
    · have hne : (!t) ≠ t := by cases t <;> decide
      simp only [setPhase_other _ _ hne]
      rcases hphase (!t) with h | h | h <;> rw [h] <;> rfl

/-- Once thread `w` has stored its analysis, every step keeps the cache and
the stored entry; the other thread can only come to return that entry. -/
theorem Won_step {s : HloFusionAnalysisCache α δ} {n : NodeId} {r : Race α δ} {w : Bool}
    (hr : Won analyze s n w r) (t : Bool) : Won analyze s n w (step analyze n r t) := by
  obtain ⟨hcache, hw, hrest⟩ := hr
  have hn : r.cache.analyses_ n = some (analyze w n s.device_info_) := by
    rw [hcache]; exact NodeMap.insert_same _ _ _
  by_cases htw : t = w
  · subst htw
    rw [step_returned analyze hw]
    exact ⟨hcache, hw, hrest⟩
  · have ht : t = !w := by cases t <;> cases w <;> simp at htw ⊢
    subst ht
    have hne : w ≠ !w := by cases w <;> decide
    cases hph : r.phase (!w) with
    | start =>
      rw [step_start_hit analyze hph hn]
      rcases hrest with ⟨hc, _⟩ | ⟨_, h⟩
      · exact ⟨hcache, by simp only [setPhase_other _ _ hne]; exact hw,
          Or.inl ⟨hc, Or.inr (setPhase_same _ _ _)⟩⟩
      · rw [hph] at h; cases h
    | missed =>
      rw [step_missed analyze hph]
      rcases hrest with ⟨hc, _⟩ | ⟨_, h⟩
      · exact ⟨hcache, by simp only [setPhase_other _ _ hne]; exact hw,
          Or.inl ⟨hc, Or.inl (by simp only [setPhase_same]; rfl)⟩⟩
      · rw [hph] at h; cases h
    | computed a =>
      rw [step_computed_discard analyze hph hn]
      rcases hrest with ⟨hc, _⟩ | ⟨_, h⟩
      · exact ⟨hcache, by simp only [setPhase_other _ _ hne]; exact hw,
          Or.inr ⟨by simp only [hc]; rfl, setPhase_same _ _ _⟩⟩
      · rw [hph] at h; cases h
    | returned v =>
      rw [step_returned analyze hph]
      exact ⟨hcache, hw, hrest⟩

theorem Won_run {s : HloFusionAnalysisCache α δ} {n : NodeId} {w : Bool}
    (sched : List Bool) (r : Race α δ) (hr : Won analyze s n w r) :
    Won analyze s n w (run analyze n r sched) := by
  induction sched generalizing r with
  | nil => exact hr
  | cons t ts ih => exact ih _ (Won_step analyze hr t)

theorem Pending_run {s : HloFusionAnalysisCache α δ} {n : NodeId}
    (hs : s.analyses_ n = none) (sched : List Bool) (r : Race α δ)
    (hr : Pending analyze s n r) :
    Pending analyze s n (run analyze n r sched) ∨
      ∃ w, Won analyze s n w (run analyze n r sched) := by
  induction sched generalizing r with
  | nil => exact Or.inl hr
  | cons t ts ih =>
    rcases Pending_step analyze hs hr t with h | h
    · exact ih _ h
    · exact Or.inr ⟨t, Won_run analyze ts _ h⟩


/-! ### Progress: every turn of a thread brings its call nearer to its return -/

theorem rank_returned {ph : Phase α} (h : 3 ≤ ph.rank) : ph.isReturned = true := by
  cases ph with
  | start => simp [Phase.rank] at h
  | missed => simp [Phase.rank] at h
  | computed a => simp [Phase.rank] at h
  | returned v => rfl

/-- A turn of thread `t` completes one more region of its call, or the call
has returned. -/
theorem step_rank_self (n : NodeId) (r : Race α δ) (t : Bool) :
    min 3 ((r.phase t).rank + 1) ≤ ((step analyze n r t).phase t).rank := by
  cases hph : r.phase t with
  | start =>
    cases hn : r.cache.analyses_ n with
    | none =>
      rw [step_start_miss analyze hph hn]
      simp [setPhase_same, Phase.rank]
    | some v =>
      rw [step_start_hit analyze hph hn]
      simp [setPhase_same, Phase.rank]
  | missed =>
    rw [step_missed analyze hph]
    simp [setPhase_same, Phase.rank]
  | computed a =>
    cases hn : r.cache.analyses_ n with
    | none =>
      rw [step_computed_store analyze hph hn]
      simp [setPhase_same, Phase.rank]
    | some v =>
      rw [step_computed_discard analyze hph hn]
      simp [setPhase_same, Phase.rank]
  | returned v =>
    rw [step_returned analyze hph, hph]
    simp [Phase.rank]

/-- A turn of thread `t` leaves the phase of the other thread as it was. -/
theorem step_phase_other (n : NodeId) (r : Race α δ) {t u : Bool} (h : u ≠ t) :
    (step analyze n r t).phase u = r.phase u := by
  cases hph : r.phase t with
  | start =>
    cases hn : r.cache.analyses_ n with
    | none => rw [step_start_miss analyze hph hn]; exact setPhase_other _ _ h
    | some v => rw [step_start_hit analyze hph hn]; exact setPhase_other _ _ h
  | missed => rw [step_missed analyze hph]; exact setPhase_other _ _ h
  | computed a =>
    cases hn : r.cache.analyses_ n with
    | none => rw [step_computed_store analyze hph hn]; exact setPhase_other _ _ h
    | some v => rw [step_computed_discard analyze hph hn]; exact setPhase_other _ _ h
  | returned v => rw [step_returned analyze hph]

theorem run_rank (n : NodeId) (t : Bool) (sched : List Bool) (r : Race α δ) :
    min 3 ((r.phase t).rank + sched.count t) ≤ ((run analyze n r sched).phase t).rank := by
  induction sched generalizing r with
  | nil => simp [run]
  | cons u us ih =>
    have hih := ih (step analyze n r u)
    show _ ≤ ((run analyze n (step analyze n r u) us).phase t).rank
    by_cases hu : u = t
    · subst hu
      have hstep := step_rank_self analyze n r u
      rw [List.count_cons_self]
      omega
    · have hne : t ≠ u := fun e => hu e.symm
      rw [step_phase_other analyze n r hne] at hih
      rw [List.count_cons_of_ne hne]
      exact hih

/-- Progress: from the start, a thread that has had three turns has
returned from its call, whatever the other thread did in between. -/
theorem run_returns (s : HloFusionAnalysisCache α δ) (n : NodeId) (t : Bool)
    (sched : List Bool) (h : 3 ≤ sched.count t) :
    ((run analyze n (init s) sched).phase t).isReturned = true := by
  apply rank_returned
  have := run_rank analyze n t sched (init s)
  have h0 : ((init s : Race α δ).phase t).rank = 0 := rfl
  omega

/-- At every point of a race on a key that was absent, a call that has
returned has returned the analysis of the thread that stored. -/
theorem Won_phase {s : HloFusionAnalysisCache α δ} {n : NodeId} {r : Race α δ} {w : Bool}
    (hr : Won analyze s n w r) (t : Bool) :
    (r.phase t).isReturned = false ∨
      r.phase t = .returned (analyze w n s.device_info_) := by
  obtain ⟨_, hw, hrest⟩ := hr
  have hother : (r.phase (!w)).isReturned = false ∨
      r.phase (!w) = .returned (analyze w n s.device_info_) := by
    rcases hrest with ⟨_, h⟩ | ⟨_, h⟩
    · exact h
    · exact Or.inr h
  by_cases htw : t = w
  · subst htw; exact Or.inr hw
  · have ht : t = !w := by cases t <;> cases w <;> simp at htw ⊢
    subst ht; exact hother

end Race

end xla.gpu

namespace xla.gpu

section RaceClaim

variable {α δ : Type}

open HloFusionAnalysisCache

/-- C11, race convergence. Two threads call `Get(n)` on a cache `s` where
`n` is not a key, and their atomic regions interleave in any order `sched`
that gives each thread its three turns (lookup, analysis, commit; a turn of
a thread whose call has returned does nothing). Then both calls have
returned, and there is a thread `w`, the one whose commit stored, such that
both calls return the analysis `w` computed; the cache is `s` with that one
entry added under `n`; the commits are the store by `w` alone, or the store
by `w` followed by the discard of the other thread; at every point of the
run the cache is `s` or `s` with that one entry, so a commit after the
first changes no map, and a call that has returned by then has returned
that entry; and every later `Get(n)` returns the stored entry without a
call, so the analysis the other thread computed is never stored or
returned. -/
theorem C11_race_convergence (analyze : Bool → NodeId → δ → Option α)
    (s : HloFusionAnalysisCache α δ) (n : NodeId) (sched : List Bool)
    (hs : s.analyses_ n = none)
    (hfalse : 3 ≤ sched.count false) (htrue : 3 ≤ sched.count true) :
    ∃ w,
      (Race.run analyze n (Race.init s) sched).phase false =
          .returned (analyze w n s.device_info_) ∧
        (Race.run analyze n (Race.init s) sched).phase true =
          .returned (analyze w n s.device_info_) ∧
        (Race.run analyze n (Race.init s) sched).cache =
          { s with analyses_ := s.analyses_.insert n (analyze w n s.device_info_) } ∧
        ((Race.run analyze n (Race.init s) sched).commits = [Commit.stored w] ∨
          (Race.run analyze n (Race.init s) sched).commits =
            [Commit.stored w, Commit.discarded (!w)]) ∧
        (∀ k,
          ((Race.run analyze n (Race.init s) (sched.take k)).cache = s ∨
            (Race.run analyze n (Race.init s) (sched.take k)).cache =
              { s with analyses_ := s.analyses_.insert n (analyze w n s.device_info_) }) ∧
          ∀ t,
            ((Race.run analyze n (Race.init s) (sched.take k)).phase t).isReturned = false ∨
              (Race.run analyze n (Race.init s) (sched.take k)).phase t =
                .returned (analyze w n s.device_info_)) ∧
        ∀ F : NodeId → δ → Option α,
          (Race.run analyze n (Race.init s) sched).cache.Get F n =
            ⟨(Race.run analyze n (Race.init s) sched).cache,
              analyze w n s.device_info_, []⟩ := by
  have h0 := Race.run_returns analyze s n false sched hfalse
  have h1 := Race.run_returns analyze s n true sched htrue
  rcases Race.Pending_run analyze hs sched _ (Race.Pending_init analyze s n) with hp | ⟨w, hw⟩
  · exfalso
    obtain ⟨_, _, hph⟩ := hp
    rcases hph false with h | h | h <;> rw [h] at h0 <;> cases h0
  · refine ⟨w, ?_⟩
    have hwon := hw
    obtain ⟨hcache, hpw, hrest⟩ := hw
    have hret : ((Race.run analyze n (Race.init s) sched).phase (!w)).isReturned = true := by
      cases w
      · exact h1
      · exact h0
    have hother : (Race.run analyze n (Race.init s) sched).phase (!w) =
        .returned (analyze w n s.device_info_) := by
      rcases hrest with ⟨_, h | h⟩ | ⟨_, h⟩
      · rw [h] at hret; cases hret
      · exact h
      · exact h
    have hcommits : (Race.run analyze n (Race.init s) sched).commits = [Commit.stored w] ∨
        (Race.run analyze n (Race.init s) sched).commits =
          [Commit.stored w, Commit.discarded (!w)] := by
      rcases hrest with ⟨h, _⟩ | ⟨h, _⟩
      · exact Or.inl h
      · exact Or.inr h
    have hstored : (Race.run analyze n (Race.init s) sched).cache.analyses_ n =
        some (analyze w n s.device_info_) := by
      rw [hcache]; exact NodeMap.insert_same _ _ _
    refine ⟨?_, ?_, hcache, hcommits, ?_, fun F => Get_hit F hstored⟩
    · cases w
      · exact hpw
      · exact hother
    · cases w
      · exact hother
      · exact hpw
    · intro k
      rcases Race.Pending_run analyze hs (sched.take k) _ (Race.Pending_init analyze s n)
        with hp | ⟨u, hu⟩
      · refine ⟨Or.inl hp.1, fun t => Or.inl ?_⟩
        rcases hp.2.2 t with h | h | h <;> rw [h] <;> rfl
      · have hfin := Race.Won_run analyze (sched.drop k) _ hu
        rw [← Race.run_append, List.take_append_drop] at hfin
        obtain ⟨_, _, hrest2⟩ := hfin
        have huw : u = w := by
          rcases hrest2 with ⟨h2, _⟩ | ⟨h2, _⟩ <;> rcases hcommits with h3 | h3 <;>
            rw [h2] at h3 <;> simp at h3 <;> exact h3
        subst huw
        exact ⟨Or.inr hu.1, Race.Won_phase analyze hu⟩

/-- C11 at `n = 1` on the empty cache: both threads miss, both compute, and
thread `true` takes the exclusive lock first. `AnalyzeFusion` is called
twice; both calls return 108, the analysis of thread `true`. -/
theorem C11_race_convergence_witness :
    (sampleRun []).analyses_ 1 = none ∧
      3 ≤ [false, true, false, true, true, false].count false ∧
      3 ≤ [false, true, false, true, true, false].count true ∧
      (Race.run sampleThreadAnalyze 1 (Race.init (sampleRun []))
        [false, true, false, true, true, false]).calls =
          [Call.AnalyzeFusion 1 7, Call.AnalyzeFusion 1 7] ∧
      (Race.run sampleThreadAnalyze 1 (Race.init (sampleRun []))
        [false, true, false, true, true, false]).commits =
          [Commit.stored true, Commit.discarded false] ∧
      (Race.run sampleThreadAnalyze 1 (Race.init (sampleRun []))
        [false, true, false, true, true, false]).phase false = .returned (some 108) ∧
      ∃ w,
        (Race.run sampleThreadAnalyze 1 (Race.init (sampleRun []))
            [false, true, false, true, true, false]).phase false =
            .returned (sampleThreadAnalyze w 1 (sampleRun []).device_info_) ∧
          (Race.run sampleThreadAnalyze 1 (Race.init (sampleRun []))
            [false, true, false, true, true, false]).phase true =
            .returned (sampleThreadAnalyze w 1 (sampleRun []).device_info_) ∧
          (Race.run sampleThreadAnalyze 1 (Race.init (sampleRun []))
            [false, true, false, true, true, false]).cache =
            { sampleRun [] with
              analyses_ := (sampleRun []).analyses_.insert 1
                (sampleThreadAnalyze w 1 (sampleRun []).device_info_) } ∧
          ((Race.run sampleThreadAnalyze 1 (Race.init (sampleRun []))
              [false, true, false, true, true, false]).commits = [Commit.stored w] ∨
            (Race.run sampleThreadAnalyze 1 (Race.init (sampleRun []))
              [false, true, false, true, true, false]).commits =
              [Commit.stored w, Commit.discarded (!w)]) ∧
          (∀ k,
            ((Race.run sampleThreadAnalyze 1 (Race.init (sampleRun []))
                ([false, true, false, true, true, false].take k)).cache = sampleRun [] ∨
              (Race.run sampleThreadAnalyze 1 (Race.init (sampleRun []))
                ([false, true, false, true, true, false].take k)).cache =
                { sampleRun [] with
                  analyses_ := (sampleRun []).analyses_.insert 1
                    (sampleThreadAnalyze w 1 (sampleRun []).device_info_) }) ∧
            ∀ t,
              ((Race.run sampleThreadAnalyze 1 (Race.init (sampleRun []))
                  ([false, true, false, true, true, false].take k)).phase t).isReturned =
                  false ∨
                (Race.run sampleThreadAnalyze 1 (Race.init (sampleRun []))
                  ([false, true, false, true, true, false].take k)).phase t =
                  .returned (sampleThreadAnalyze w 1 (sampleRun []).device_info_)) ∧
          ∀ F : NodeId → Nat → Option Nat,
            (Race.run sampleThreadAnalyze 1 (Race.init (sampleRun []))
              [false, true, false, true, true, false]).cache.Get F 1 =
              ⟨(Race.run sampleThreadAnalyze 1 (Race.init (sampleRun []))
                [false, true, false, true, true, false]).cache,
                sampleThreadAnalyze w 1 (sampleRun []).device_info_, []⟩ :=
  ⟨rfl, by decide, by decide, rfl, rfl, rfl,
    C11_race_convergence sampleThreadAnalyze (sampleRun []) 1
      [false, true, false, true, true, false] rfl (by decide) (by decide)⟩

end RaceClaim

end xla.gpu

namespace xla.gpu

/-! ## The frame and reverse-index claims at concrete inputs -/

section FrameWitnesses

open HloFusionAnalysisCache

/-- C14 at `(p, c) = (1, 3)` after `Get(1, 2)`, where `(1, 3)` is not a
key and node 1 already lists the consumer 2. -/
theorem C14_pair_miss_postcondition_witness :
    (sampleRun [Op.getPair 1 2]).producer_consumer_analyses_ (1, 3) = none ∧
      ((sampleRun [Op.getPair 1 2]).GetPair sampleAnalyzeProducerConsumerFusion 1
          3).cache.producer_consumer_analyses_ =
        (sampleRun [Op.getPair 1 2]).producer_consumer_analyses_.insert (1, 3)
          (sampleAnalyzeProducerConsumerFusion 1 3 (sampleRun [Op.getPair 1 2]).device_info_) ∧
      ((sampleRun [Op.getPair 1 2]).GetPair sampleAnalyzeProducerConsumerFusion 1
          3).cache.consumers_for_producers_ 1 =
        some (((sampleRun [Op.getPair 1 2]).consumers_for_producers_ 1).getD [] ++ [3]) ∧
      ((sampleRun [Op.getPair 1 2]).GetPair sampleAnalyzeProducerConsumerFusion 1
          3).cache.producers_for_consumers_ 3 =
        some (((sampleRun [Op.getPair 1 2]).producers_for_consumers_ 3).getD [] ++ [1]) ∧
      (∀ m, m ≠ 1 →
        ((sampleRun [Op.getPair 1 2]).GetPair sampleAnalyzeProducerConsumerFusion 1
            3).cache.consumers_for_producers_ m =
          (sampleRun [Op.getPair 1 2]).consumers_for_producers_ m) ∧
      (∀ m, m ≠ 3 →
        ((sampleRun [Op.getPair 1 2]).GetPair sampleAnalyzeProducerConsumerFusion 1
            3).cache.producers_for_consumers_ m =
          (sampleRun [Op.getPair 1 2]).producers_for_consumers_ m) ∧
      ((sampleRun [Op.getPair 1 2]).GetPair sampleAnalyzeProducerConsumerFusion 1
          3).cache.analyses_ = (sampleRun [Op.getPair 1 2]).analyses_ ∧
      ((sampleRun [Op.getPair 1 2]).GetPair sampleAnalyzeProducerConsumerFusion 1
          3).cache.device_info_ = (sampleRun [Op.getPair 1 2]).device_info_ ∧
      ((sampleRun [Op.getPair 1 2]).GetPair sampleAnalyzeProducerConsumerFusion 1 3).value =
        sampleAnalyzeProducerConsumerFusion 1 3 (sampleRun [Op.getPair 1 2]).device_info_ ∧
      ((sampleRun [Op.getPair 1 2]).GetPair sampleAnalyzeProducerConsumerFusion 1 3).calls =
        [Call.AnalyzeProducerConsumerFusion 1 3 (sampleRun [Op.getPair 1 2]).device_info_] :=
  ⟨rfl,
    C14_pair_miss_postcondition sampleAnalyzeProducerConsumerFusion
      (sampleRun [Op.getPair 1 2]) 1 3 rfl⟩

/-- C15 at `(p, c) = (1, 2)` after `Get(1, 2)`, where the pair holds 19. -/
theorem C15_pair_hit_frame_witness :
    (sampleRun [Op.getPair 1 2]).producer_consumer_analyses_ (1, 2) = some (some 19) ∧
      (sampleRun [Op.getPair 1 2]).GetPair sampleAnalyzeProducerConsumerFusion 1 2 =
        ⟨sampleRun [Op.getPair 1 2], some 19, []⟩ ∧
      ∀ analysis : Option Nat,
        (sampleRun [Op.getPair 1 2]).GetPairLocked 1 2 analysis =
          (sampleRun [Op.getPair 1 2], some 19) :=
  ⟨rfl,
    C15_pair_hit_frame sampleAnalyzeProducerConsumerFusion (sampleRun [Op.getPair 1 2]) 1 2
      (some 19) rfl⟩

/-- C16 at `p = 1`, `c = 2` after `Get(2, 1)`, `Get(1)`. -/
theorem C16_asymmetric_cleanup_witness :
    (1 : NodeId) ≠ 2 ∧
      (((sampleRun [Op.getPair 2 1, Op.getSingle 1]).GetPair
          sampleAnalyzeProducerConsumerFusion 1 2).cache.Invalidate
            1).producers_for_consumers_ 2 =
        ((sampleRun [Op.getPair 2 1, Op.getSingle 1]).GetPair
          sampleAnalyzeProducerConsumerFusion 1 2).cache.producers_for_consumers_ 2 ∧
      (∃ l, (((sampleRun [Op.getPair 2 1, Op.getSingle 1]).GetPair
          sampleAnalyzeProducerConsumerFusion 1 2).cache.Invalidate
            1).producers_for_consumers_ 2 = some l ∧ 1 ∈ l) ∧
      (((sampleRun [Op.getPair 2 1, Op.getSingle 1]).GetPair
          sampleAnalyzeProducerConsumerFusion 1 2).cache.Invalidate
            1).producer_consumer_analyses_ (1, 2) = none ∧
      (((sampleRun [Op.getPair 2 1, Op.getSingle 1]).GetPair
          sampleAnalyzeProducerConsumerFusion 1 2).cache.Invalidate
            2).consumers_for_producers_ 1 =
        ((sampleRun [Op.getPair 2 1, Op.getSingle 1]).GetPair
          sampleAnalyzeProducerConsumerFusion 1 2).cache.consumers_for_producers_ 1 ∧
      (∃ l, (((sampleRun [Op.getPair 2 1, Op.getSingle 1]).GetPair
          sampleAnalyzeProducerConsumerFusion 1 2).cache.Invalidate
            2).consumers_for_producers_ 1 = some l ∧ 2 ∈ l) ∧
      (((sampleRun [Op.getPair 2 1, Op.getSingle 1]).GetPair
          sampleAnalyzeProducerConsumerFusion 1 2).cache.Invalidate
            2).producer_consumer_analyses_ (1, 2) = none :=
  ⟨by decide,
    C16_asymmetric_cleanup sampleAnalyzeFusion sampleAnalyzeProducerConsumerFusion 7
      [Op.getPair 2 1, Op.getSingle 1] 1 2 (by decide)⟩

/-- C17 at `n = 1` with `m = 2` and `(p, c) = (2, 3)` after `Get(1, 2)`,
`Get(2, 3)`, `Get(2)`, `Get(1)`. -/
theorem C17_invalidate_frame_witness :
    (2 : NodeId) ≠ 1 ∧ (3 : NodeId) ≠ 1 ∧
      ((sampleRun [Op.getPair 1 2, Op.getPair 2 3, Op.getSingle 2,
          Op.getSingle 1]).Invalidate 1).analyses_ 2 =
        (sampleRun [Op.getPair 1 2, Op.getPair 2 3, Op.getSingle 2,
          Op.getSingle 1]).analyses_ 2 ∧
      ((sampleRun [Op.getPair 1 2, Op.getPair 2 3, Op.getSingle 2,
          Op.getSingle 1]).Invalidate 1).producer_consumer_analyses_ (2, 3) =
        (sampleRun [Op.getPair 1 2, Op.getPair 2 3, Op.getSingle 2,
          Op.getSingle 1]).producer_consumer_analyses_ (2, 3) ∧
      ((sampleRun [Op.getPair 1 2, Op.getPair 2 3, Op.getSingle 2,
          Op.getSingle 1]).Invalidate 1).consumers_for_producers_ 2 =
        (sampleRun [Op.getPair 1 2, Op.getPair 2 3, Op.getSingle 2,
          Op.getSingle 1]).consumers_for_producers_ 2 ∧
      ((sampleRun [Op.getPair 1 2, Op.getPair 2 3, Op.getSingle 2,
          Op.getSingle 1]).Invalidate 1).producers_for_consumers_ 2 =
        (sampleRun [Op.getPair 1 2, Op.getPair 2 3, Op.getSingle 2,
          Op.getSingle 1]).producers_for_consumers_ 2 ∧
      (∀ k, ((sampleRun [Op.getPair 1 2, Op.getPair 2 3, Op.getSingle 2,
          Op.getSingle 1]).Invalidate 1).analyses_ k = none ∨
        ((sampleRun [Op.getPair 1 2, Op.getPair 2 3, Op.getSingle 2,
            Op.getSingle 1]).Invalidate 1).analyses_ k =
          (sampleRun [Op.getPair 1 2, Op.getPair 2 3, Op.getSingle 2,
            Op.getSingle 1]).analyses_ k) ∧
      (∀ k, ((sampleRun [Op.getPair 1 2, Op.getPair 2 3, Op.getSingle 2,
          Op.getSingle 1]).Invalidate 1).producer_consumer_analyses_ k = none ∨
        ((sampleRun [Op.getPair 1 2, Op.getPair 2 3, Op.getSingle 2,
            Op.getSingle 1]).Invalidate 1).producer_consumer_analyses_ k =
          (sampleRun [Op.getPair 1 2, Op.getPair 2 3, Op.getSingle 2,
            Op.getSingle 1]).producer_consumer_analyses_ k) ∧
      ((sampleRun [Op.getPair 1 2, Op.getPair 2 3, Op.getSingle 2,
          Op.getSingle 1]).Invalidate 1).device_info_ =
        (sampleRun [Op.getPair 1 2, Op.getPair 2 3, Op.getSingle 2,
          Op.getSingle 1]).device_info_ :=
  ⟨by decide, by decide,
    C17_invalidate_frame
      (sampleRun [Op.getPair 1 2, Op.getPair 2 3, Op.getSingle 2, Op.getSingle 1]) 1 2 2 3
      (by decide) (by decide) (by decide)⟩

/-- C19 for `Get(1)`, `Get(1, 2)`, `Invalidate(1)`, `Get(1, 2)`,
`Get(3, 1)`, followed by `Invalidate` of 2, 3 and 1. -/
theorem C19_no_residue_witness :
    (∀ op ∈ [Op.getSingle 1, Op.getPair 1 2, Op.invalidate 1, Op.getPair 1 2,
        Op.getPair 3 1], ∀ n ∈ op.queried, n ∈ [2, 3, 1]) ∧
      runCache sampleAnalyzeFusion sampleAnalyzeProducerConsumerFusion
          (sampleRun [Op.getSingle 1, Op.getPair 1 2, Op.invalidate 1, Op.getPair 1 2,
            Op.getPair 3 1])
          ([2, 3, 1].map Op.invalidate) =
        construct 7 :=
  ⟨by decide,
    C19_no_residue sampleAnalyzeFusion sampleAnalyzeProducerConsumerFusion 7
      [Op.getSingle 1, Op.getPair 1 2, Op.invalidate 1, Op.getPair 1 2, Op.getPair 3 1]
      [2, 3, 1] (by decide)⟩

end FrameWitnesses

end xla.gpu
